import Mathlib

/-!
Verification development for the per-range replicated state machine of the
cockroach repository snapshot (storage/replica.go, proto/internal.pb.go and
the SQL privilege descriptor file).

Shallow embedding conventions:
* Go machine integers are modelled as `Nat` with wrap-around written
  explicitly as `% 2 ^ 64` where the Go code can overflow (the protobuf
  decoders); signed Go integers that only ever carry order information
  (timestamps) are modelled as `Int`.
* Byte slices are `List Nat` (each element a byte value).
* Fallible Go functions returning `error` are modelled with `Option`:
  `none` stands for a nil error unless the doc comment says otherwise.
-/

namespace Spec2Proof

/-! ## Protobuf wire format (src/proto/internal.pb.go)

`encodeVarintInternal` writes `v & 0x7f | 0x80` and shifts right by 7 while
`v >= 1 << 7`; on `uint64` those ops equal `v % 128 + 128` and `v / 128`,
which is how they are written here. -/

/-- `encodeVarintInternal` from internal.pb.go, producing the byte list that
the Go code appends at `data[offset..]`. -/
def encodeVarint (v : Nat) : List Nat :=
  if h : v < 128 then [v]
  else (v % 128 + 128) :: encodeVarint (v / 128)
decreasing_by exact Nat.div_lt_self (by omega) (by omega)

/-- The varint read loop shared by all `Unmarshal` methods in internal.pb.go:
`x |= (uint64(b) & 0x7F) << shift`, continuing while `b >= 0x80`.  The
`% 2 ^ 64` records Go's wrap-around on the 64-bit shift.  Returns the decoded
value and the remaining bytes, or `none` on `io.ErrUnexpectedEOF`. -/
def decodeVarint : List Nat → Nat → Nat → Option (Nat × List Nat)
  | [], _, _ => none
  | b :: rest, shift, acc =>
    let acc' := acc ||| ((b &&& 127) <<< shift % 2 ^ 64)
    if b < 128 then some (acc', rest) else decodeVarint rest (shift + 7) acc'

theorem encodeVarint_ne_nil (v : Nat) : encodeVarint v ≠ [] := by
  rw [encodeVarint]
  split
  · exact List.cons_ne_nil _ _
  · exact List.cons_ne_nil _ _

/-- Disjoint bit ranges: or-ing a shifted value onto a small accumulator is
addition. -/
theorem lor_shiftLeft_eq_add {a : Nat} {n : Nat} (b : Nat) (h : a < 2 ^ n) :
    a ||| b <<< n = b * 2 ^ n + a := by
  rw [Nat.shiftLeft_eq, Nat.lor_comm, Nat.mul_comm,
    ← Nat.mul_add_lt_is_or h, Nat.mul_comm]

theorem and_127_eq_mod (b : Nat) : b &&& 127 = b % 128 := by
  have h : (127 : Nat) = 2 ^ 7 - 1 := by norm_num
  rw [h, Nat.and_pow_two_sub_one_eq_mod]

/-- Round-trip of the varint codec: decoding the encoding of `v` on top of an
accumulator with `shift` already-consumed bits recovers `v`, provided the
total fits in 64 bits (the width of every varint field in internal.pb.go). -/
theorem decodeVarint_encodeVarint (v : Nat) : ∀ (shift acc : Nat) (rest : List Nat),
    acc < 2 ^ shift → v * 2 ^ shift + acc < 2 ^ 64 →
    decodeVarint (encodeVarint v ++ rest) shift acc = some (v * 2 ^ shift + acc, rest) := by
  induction v using Nat.strong_induction_on with
  | _ v ih =>
    intro shift acc rest hacc hfit
    by_cases hv : v < 128
    · rw [encodeVarint, dif_pos hv]
      simp only [List.cons_append, List.nil_append, decodeVarint]
      have hand : v &&& 127 = v := by
        rw [and_127_eq_mod]
        exact Nat.mod_eq_of_lt hv
      have hsh : (v &&& 127) <<< shift % 2 ^ 64 = v <<< shift := by
        rw [hand, Nat.mod_eq_of_lt]
        rw [Nat.shiftLeft_eq]
        omega
      rw [hsh, lor_shiftLeft_eq_add v hacc, if_pos hv]
      rfl
    · rw [encodeVarint, dif_neg hv]
      simp only [List.cons_append, decodeVarint]
      have hmod : v % 128 < 128 := Nat.mod_lt _ (by omega)
      have hand : (v % 128 + 128) &&& 127 = v % 128 := by
        rw [and_127_eq_mod]
        omega
      have hle : v % 128 * 2 ^ shift + acc ≤ v * 2 ^ shift + acc := by
        have := Nat.mul_le_mul_right (2 ^ shift) (Nat.mod_le v 128)
        omega
      have hsh : ((v % 128 + 128) &&& 127) <<< shift % 2 ^ 64 = (v % 128) <<< shift := by
        rw [hand, Nat.mod_eq_of_lt]
        rw [Nat.shiftLeft_eq]
        omega
      rw [hsh, lor_shiftLeft_eq_add _ hacc, if_neg (by omega)]
      have hacc' : v % 128 * 2 ^ shift + acc < 2 ^ (shift + 7) := by
        have h1 : v % 128 * 2 ^ shift ≤ 127 * 2 ^ shift :=
          Nat.mul_le_mul_right _ (by omega)
        have h2 : (128 : Nat) * 2 ^ shift = 2 ^ (shift + 7) := by
          rw [pow_add]; ring
        omega
      have harith : v / 128 * 2 ^ (shift + 7) + (v % 128 * 2 ^ shift + acc)
          = v * 2 ^ shift + acc := by
        have h2 : (2 : Nat) ^ (shift + 7) = 2 ^ shift * 128 := by
          rw [pow_add]; ring
        have h3 : v / 128 * (2 ^ shift * 128) + v % 128 * 2 ^ shift
            = (v / 128 * 128 + v % 128) * 2 ^ shift := by ring
        rw [h2, ← Nat.add_assoc, h3, Nat.div_add_mod']
      rw [← harith]
      exact ih (v / 128) (Nat.div_lt_self (by omega) (by omega)) (shift + 7)
        (v % 128 * 2 ^ shift + acc) rest hacc' (by omega)

theorem decodeVarint_encode0 (v : Nat) (rest : List Nat) (h : v < 2 ^ 64) :
    decodeVarint (encodeVarint v ++ rest) 0 0 = some (v, rest) := by
  have := decodeVarint_encodeVarint v 0 0 rest (by norm_num) (by simpa)
  simpa using this

theorem decodeVarint_encode_nil (v : Nat) (h : v < 2 ^ 64) :
    decodeVarint (encodeVarint v) 0 0 = some (v, []) := by
  have := decodeVarint_encode0 v [] h
  simpa using this

theorem decodeVarint_tag (b : Nat) (rest : List Nat) (h1 : b < 128) :
    decodeVarint (b :: rest) 0 0 = some (b, rest) := by
  have hb : b &&& 127 = b := by
    have h127 : (127 : Nat) = 2 ^ 7 - 1 := by norm_num
    rw [h127, Nat.and_pow_two_sub_one_eq_mod, Nat.mod_eq_of_lt h1]
  simp only [decodeVarint]
  rw [if_pos h1]
  simp [hb, Nat.shiftLeft_eq]
  omega

theorem encodeVarint_length_pos (v : Nat) : 1 ≤ (encodeVarint v).length := by
  rw [encodeVarint]
  split
  · simp
  · simp

/-- `skipInternal` from internal.pb.go, specialised to the bytes that follow
an already-consumed tag: skips the payload of a field of the given wire type
and returns the remaining bytes (`none` on EOF / invalid length).  The
deprecated group wire types 3 and 4, which no marshaller in this file
produces, are not modelled and map to `none` like the illegal types. -/
def skipFieldPayload (wireType : Nat) (data : List Nat) : Option (List Nat) :=
  if wireType = 0 then
    match decodeVarint data 0 0 with
    | none => none
    | some (_, rest) => some rest
  else if wireType = 1 then
    if 8 ≤ data.length then some (data.drop 8) else none
  else if wireType = 2 then
    match decodeVarint data 0 0 with
    | none => none
    | some (len, rest) => if len ≤ rest.length then some (rest.drop len) else none
  else if wireType = 5 then
    if 4 ≤ data.length then some (data.drop 4) else none
  else none

/-- `RaftTruncatedState` (internal.pb.go): `Index` and `Term` are `uint64`,
modelled as `Nat` values below `2 ^ 64`. -/
structure RaftTruncatedState where
  Index : Nat
  Term : Nat
deriving DecidableEq

/-- `RaftTruncatedState.MarshalTo`: tag `0x8` + varint `Index`, tag `0x10` +
varint `Term`. -/
def RaftTruncatedState.Marshal (m : RaftTruncatedState) : List Nat :=
  8 :: (encodeVarint m.Index ++ 16 :: encodeVarint m.Term)

/-- The field loop of `RaftTruncatedState.Unmarshal`.  Each Go iteration
consumes at least the tag byte, so running the loop with fuel
`data.length + 1` (see `RaftTruncatedState.Unmarshal`) never exhausts the
fuel; fuel `0` with bytes left plays the role of an unreachable branch. -/
def RaftTruncatedState.UnmarshalLoop :
    Nat → RaftTruncatedState → List Nat → Option RaftTruncatedState
  | _, m, [] => some m
  | 0, _, _ :: _ => none
  | fuel + 1, m, b :: bs =>
    match decodeVarint (b :: bs) 0 0 with
    | none => none
    | some (wire, rest) =>
      let fieldNum := wire >>> 3
      let wireType := wire &&& 7
      if fieldNum = 1 then
        if wireType = 0 then
          match decodeVarint rest 0 0 with
          | none => none
          | some (v, rest') => RaftTruncatedState.UnmarshalLoop fuel ⟨v, m.Term⟩ rest'
        else none
      else if fieldNum = 2 then
        if wireType = 0 then
          match decodeVarint rest 0 0 with
          | none => none
          | some (v, rest') => RaftTruncatedState.UnmarshalLoop fuel ⟨m.Index, v⟩ rest'
        else none
      else
        match skipFieldPayload wireType rest with
        | none => none
        | some rest' => RaftTruncatedState.UnmarshalLoop fuel m rest'

/-- `RaftTruncatedState.Unmarshal` from internal.pb.go (receiver `m`, which
Go overwrites field by field). -/
def RaftTruncatedState.Unmarshal (m : RaftTruncatedState) (data : List Nat) :
    Option RaftTruncatedState :=
  RaftTruncatedState.UnmarshalLoop (data.length + 1) m data

/-- `RaftCommand` (internal.pb.go): `RangeID`/`OriginNodeID` are 64-bit Go
integers, modelled as their two's-complement images below `2 ^ 64`.  The
embedded `BatchRequest` is kept as its marshalled byte string `Cmd`: its own
codec lives outside this repository snapshot (Modelled from the spec: the
`RaftCommand` wire format stores field 3 as a length-delimited embedded
message). -/
structure RaftCommand where
  RangeID : Nat
  OriginNodeID : Nat
  Cmd : List Nat
deriving DecidableEq

/-- `RaftCommand.MarshalTo`: tag `0x8` + varint `RangeID`, tag `0x10` +
varint `OriginNodeID`, tag `0x1a` + varint length of the embedded message +
its bytes. -/
def RaftCommand.Marshal (m : RaftCommand) : List Nat :=
  8 :: (encodeVarint m.RangeID ++ 16 :: (encodeVarint m.OriginNodeID ++
    26 :: (encodeVarint m.Cmd.length ++ m.Cmd)))

/-- The field loop of `RaftCommand.Unmarshal`; fuel as in
`RaftTruncatedState.UnmarshalLoop`.  For field 3 the Go code slices
`data[iNdEx:postIndex]` (EOF if `postIndex > l`) and hands it to
`m.Cmd.Unmarshal`, modelled as storing those bytes. -/
def RaftCommand.UnmarshalLoop : Nat → RaftCommand → List Nat → Option RaftCommand
  | _, m, [] => some m
  | 0, _, _ :: _ => none
  | fuel + 1, m, b :: bs =>
    match decodeVarint (b :: bs) 0 0 with
    | none => none
    | some (wire, rest) =>
      let fieldNum := wire >>> 3
      let wireType := wire &&& 7
      if fieldNum = 1 then
        if wireType = 0 then
          match decodeVarint rest 0 0 with
          | none => none
          | some (v, rest') =>
            RaftCommand.UnmarshalLoop fuel ⟨v, m.OriginNodeID, m.Cmd⟩ rest'
        else none
      else if fieldNum = 2 then
        if wireType = 0 then
          match decodeVarint rest 0 0 with
          | none => none
          | some (v, rest') =>
            RaftCommand.UnmarshalLoop fuel ⟨m.RangeID, v, m.Cmd⟩ rest'
        else none
      else if fieldNum = 3 then
        if wireType = 2 then
          match decodeVarint rest 0 0 with
          | none => none
          | some (msglen, rest') =>
            if rest'.length < msglen then none
            else RaftCommand.UnmarshalLoop fuel
              ⟨m.RangeID, m.OriginNodeID, rest'.take msglen⟩ (rest'.drop msglen)
        else none
      else
        match skipFieldPayload wireType rest with
        | none => none
        | some rest' => RaftCommand.UnmarshalLoop fuel m rest'

/-- `RaftCommand.Unmarshal` from internal.pb.go. -/
def RaftCommand.Unmarshal (m : RaftCommand) (data : List Nat) : Option RaftCommand :=
  RaftCommand.UnmarshalLoop (data.length + 1) m data

theorem rts_loop_marshal (f : Nat) (m v : RaftTruncatedState)
    (h1 : v.Index < 2 ^ 64) (h2 : v.Term < 2 ^ 64) :
    RaftTruncatedState.UnmarshalLoop (f + 2) m v.Marshal = some v := by
  obtain ⟨idx, term⟩ := v
  have hM : RaftTruncatedState.Marshal ⟨idx, term⟩
      = 8 :: (encodeVarint idx ++ 16 :: (encodeVarint term ++ [])) := by
    simp [RaftTruncatedState.Marshal]
  rw [hM, show f + 2 = (f + 1) + 1 by omega]
  simp only [RaftTruncatedState.UnmarshalLoop]
  rw [decodeVarint_tag 8 _ (by norm_num)]
  simp
  rw [decodeVarint_encode0 idx _ h1]
  simp
  simp only [RaftTruncatedState.UnmarshalLoop]
  rw [decodeVarint_tag 16 _ (by norm_num)]
  simp
  rw [decodeVarint_encode_nil term h2]
  simp [RaftTruncatedState.UnmarshalLoop]
  decide

theorem rc_loop_marshal (f : Nat) (m v : RaftCommand)
    (h1 : v.RangeID < 2 ^ 64) (h2 : v.OriginNodeID < 2 ^ 64)
    (h3 : v.Cmd.length < 2 ^ 64) :
    RaftCommand.UnmarshalLoop (f + 3) m v.Marshal = some v := by
  obtain ⟨rid, onid, cmd⟩ := v
  have hM : RaftCommand.Marshal ⟨rid, onid, cmd⟩
      = 8 :: (encodeVarint rid ++ 16 :: (encodeVarint onid ++
        26 :: (encodeVarint cmd.length ++ cmd))) := rfl
  rw [hM, show f + 3 = ((f + 1) + 1) + 1 by omega]
  simp only [RaftCommand.UnmarshalLoop]
  rw [decodeVarint_tag 8 _ (by norm_num)]
  simp
  rw [decodeVarint_encode0 rid _ h1]
  simp
  simp only [RaftCommand.UnmarshalLoop]
  rw [decodeVarint_tag 16 _ (by norm_num)]
  simp
  rw [decodeVarint_encode0 onid _ h2]
  simp
  simp only [RaftCommand.UnmarshalLoop]
  rw [decodeVarint_tag 26 _ (by norm_num)]
  simp
  rw [decodeVarint_encode0 cmd.length _ h3]
  simp [RaftCommand.UnmarshalLoop]
  decide

/-- C9: For every `RaftTruncatedState` and `RaftCommand` value (fields within
their Go 64-bit ranges), `Unmarshal` applied to the bytes produced by
`Marshal` yields a value equal to the original, whatever the receiver the
decoder starts from. -/
theorem C9_marshal_unmarshal_roundtrip (m0 v : RaftTruncatedState) (n0 w : RaftCommand)
    (hvi : v.Index < 2 ^ 64) (hvt : v.Term < 2 ^ 64)
    (hwr : w.RangeID < 2 ^ 64) (hwo : w.OriginNodeID < 2 ^ 64)
    (hwc : w.Cmd.length < 2 ^ 64) :
    m0.Unmarshal v.Marshal = some v ∧ n0.Unmarshal w.Marshal = some w := by
  constructor
  · unfold RaftTruncatedState.Unmarshal
    have hlen : 1 ≤ v.Marshal.length := by
      simp [RaftTruncatedState.Marshal]
    rw [show v.Marshal.length + 1 = (v.Marshal.length - 1) + 2 by omega]
    exact rts_loop_marshal _ m0 v hvi hvt
  · unfold RaftCommand.Unmarshal
    have hlen : 1 ≤ w.Marshal.length := by
      simp [RaftCommand.Marshal]
    have hlen2 : 2 ≤ w.Marshal.length := by
      have h1 := encodeVarint_length_pos w.RangeID
      simp [RaftCommand.Marshal]
      omega
    rw [show w.Marshal.length + 1 = (w.Marshal.length - 2) + 3 by omega]
    exact rc_loop_marshal _ n0 w hwr hwo hwc

/-- Witness for C9 at concrete values. -/
theorem C9_marshal_unmarshal_roundtrip_witness :
    RaftTruncatedState.Unmarshal ⟨0, 0⟩ (RaftTruncatedState.Marshal ⟨300, 7⟩)
      = some ⟨300, 7⟩ ∧
    RaftCommand.Unmarshal ⟨0, 0, []⟩ (RaftCommand.Marshal ⟨5, 2, [1, 2, 3]⟩)
      = some ⟨5, 2, [1, 2, 3]⟩ :=
  C9_marshal_unmarshal_roundtrip ⟨0, 0⟩ ⟨300, 7⟩ ⟨0, 0, []⟩ ⟨5, 2, [1, 2, 3]⟩
    (by norm_num) (by norm_num) (by norm_num) (by norm_num) (by norm_num)

/-! ## Privilege descriptor (src/unnamed/part_000, package sql)

User names are Go strings used only through `<` and `==` (sorted order and
lookup); they are modelled by an ordered id type.  `sort.Search` (Go stdlib,
outside this repository) returns the smallest index satisfying a monotone
predicate, which on the sorted `Users` list is the first entry with
`User >= user`; the list functions below walk to that position directly. -/

/-- Modelled from the spec: the `sql/privilege` package (not under src/)
defines a closed enumeration of privilege kinds with a distinguished `ALL`
bit; the kinds are ALL, CREATE, DROP, GRANT, SELECT, INSERT, DELETE, UPDATE
with consecutive values from 0. -/
inductive Kind where
  | ALL
  | CREATE
  | DROP
  | GRANT
  | SELECT
  | INSERT
  | DELETE
  | UPDATE
deriving DecidableEq

/-- The numeric value of a privilege kind (`privilege.Kind` is an integer
enum starting at `ALL = 0`). -/
def Kind.val : Kind → Nat
  | .ALL => 0
  | .CREATE => 1
  | .DROP => 2
  | .GRANT => 3
  | .SELECT => 4
  | .INSERT => 5
  | .DELETE => 6
  | .UPDATE => 7

/-- `privilege.ByValue`: the list of all kinds in value order (modelled from
the spec's closed enumeration). -/
def Kind.ByValue : List Kind :=
  [.ALL, .CREATE, .DROP, .GRANT, .SELECT, .INSERT, .DELETE, .UPDATE]

/-- `privilege.List.ToBitField`: or together `1 << kind` over the list. -/
def toBitField (privList : List Kind) : Nat :=
  privList.foldl (fun bits k => bits ||| 1 <<< k.val) 0

/-- A `UserPrivileges` entry: user name (as ordered id) and privilege
bitfield. -/
structure UserPrivileges where
  User : Nat
  Privileges : Nat
deriving DecidableEq

/-- `PrivilegeDescriptor`: the sorted `Users` list. -/
structure PrivilegeDescriptor where
  Users : List UserPrivileges
deriving DecidableEq

/-- Go's AND NOT `a &^ b`, written with kernel-computable operations
(`a &^ b = a ^ (a & b)` bitwise). -/
def andNot (a b : Nat) : Nat := a ^^^ (a &&& b)

/-- The mutation `Grant` performs on the found-or-created user entry's bits:
no-op if the user already holds `ALL`; overwrite with the `ALL` singleton if
`ALL` is being granted; otherwise or in the new bits. -/
def grantBits (old bits : Nat) : Nat :=
  if old &&& 1 <<< Kind.ALL.val ≠ 0 then old
  else if bits &&& 1 <<< Kind.ALL.val ≠ 0 then 1 <<< Kind.ALL.val
  else old ||| bits

/-- `findOrCreateUser` combined with the entry mutation of `Grant`: walk the
sorted list to the first entry with `User >= user` (the `sort.Search`
position), update in place if found, otherwise insert a fresh zero-bits
entry there and update it. -/
def grantUsers : List UserPrivileges → Nat → Nat → List UserPrivileges
  | [], user, bits => [⟨user, grantBits 0 bits⟩]
  | u :: rest, user, bits =>
    if u.User < user then u :: grantUsers rest user bits
    else if u.User = user then ⟨u.User, grantBits u.Privileges bits⟩ :: rest
    else ⟨user, grantBits 0 bits⟩ :: u :: rest

/-- `PrivilegeDescriptor.Grant` from part_000. -/
def PrivilegeDescriptor.Grant (p : PrivilegeDescriptor) (user : Nat)
    (privList : List Kind) : PrivilegeDescriptor :=
  ⟨grantUsers p.Users user (toBitField privList)⟩

/-- The `Revoke` loop that expands a held `ALL` into every non-ALL bit:
`for _, v := range ByValue { if v != ALL { priv |= 1 << v } }` from 0. -/
def allButAll : Nat :=
  Kind.ByValue.foldl (fun bits v => if v ≠ Kind.ALL then bits ||| 1 <<< v.val else bits) 0

/-- The mutation `Revoke` performs on a found user entry's bits (the caller
has already ruled out `Privileges == 0`): revoking `ALL` removes the entry
(`none`); otherwise a held `ALL` is first expanded to all non-ALL bits, the
requested bits are cleared with `&^`, and a zero result removes the entry. -/
def revokeBits (old bits : Nat) : Option Nat :=
  if bits &&& 1 <<< Kind.ALL.val ≠ 0 then none
  else
    let cur := if old &&& 1 <<< Kind.ALL.val ≠ 0 then allButAll else old
    let newPriv := andNot cur bits
    if newPriv = 0 then none else some newPriv

/-- `findUser` combined with the entry mutation / removal of `Revoke`; a
missing user or one with zero bits is a no-op. -/
def revokeUsers : List UserPrivileges → Nat → Nat → List UserPrivileges
  | [], _, _ => []
  | u :: rest, user, bits =>
    if u.User < user then u :: revokeUsers rest user bits
    else if u.User = user then
      if u.Privileges = 0 then u :: rest
      else
        match revokeBits u.Privileges bits with
        | none => rest
        | some p => ⟨u.User, p⟩ :: rest
    else u :: rest

/-- `PrivilegeDescriptor.Revoke` from part_000. -/
def PrivilegeDescriptor.Revoke (p : PrivilegeDescriptor) (user : Nat)
    (privList : List Kind) : PrivilegeDescriptor :=
  ⟨revokeUsers p.Users user (toBitField privList)⟩

/-- `findUser` from part_000 (via `findUserIndex` / `sort.Search` on the
sorted list). -/
def findUserList : List UserPrivileges → Nat → Option UserPrivileges
  | [], _ => none
  | u :: rest, user =>
    if u.User < user then findUserList rest user
    else if u.User = user then some u
    else none

/-- `PrivilegeDescriptor.findUser`. -/
def PrivilegeDescriptor.findUser (p : PrivilegeDescriptor) (user : Nat) :
    Option UserPrivileges :=
  findUserList p.Users user

/-- `PrivilegeDescriptor.CheckPrivilege` from part_000. -/
def PrivilegeDescriptor.CheckPrivilege (p : PrivilegeDescriptor) (user : Nat)
    (priv : Kind) : Bool :=
  match p.findUser user with
  | none => false
  | some userPriv =>
    if userPriv.Privileges &&& 1 <<< Kind.ALL.val ≠ 0 then true
    else decide (userPriv.Privileges &&& 1 <<< priv.val ≠ 0)

/-- `security.RootUser` as an id (the actual string lives outside src/). -/
def RootUser : Nat := 0

/-- `NewDefaultDatabasePrivilegeDescriptor` from part_000. -/
def NewDefaultDatabasePrivilegeDescriptor : PrivilegeDescriptor :=
  ⟨[⟨RootUser, 1 <<< Kind.ALL.val⟩]⟩

/-- A grant or revoke step, for stating invariants over operation
sequences. -/
inductive PrivOp where
  | grant (user : Nat) (privList : List Kind)
  | revoke (user : Nat) (privList : List Kind)

def applyPrivOp (p : PrivilegeDescriptor) : PrivOp → PrivilegeDescriptor
  | .grant u l => p.Grant u l
  | .revoke u l => p.Revoke u l

def applyPrivOps (p : PrivilegeDescriptor) (ops : List PrivOp) : PrivilegeDescriptor :=
  ops.foldl applyPrivOp p

/-- The C8 invariant: an entry whose bits contain `ALL` is exactly the `ALL`
singleton. -/
def allSingletonInv (p : PrivilegeDescriptor) : Prop :=
  ∀ e ∈ p.Users, e.Privileges &&& 1 <<< Kind.ALL.val ≠ 0 →
    e.Privileges = 1 <<< Kind.ALL.val

theorem and_one_shiftLeft_ne_zero (x k : Nat) :
    x &&& 1 <<< k ≠ 0 ↔ x.testBit k = true := by
  rw [Nat.one_shiftLeft, Nat.and_two_pow]
  cases h : x.testBit k
  · simp
  · have := Nat.two_pow_pos k
    simp only [Bool.toNat_true, Nat.one_mul]
    constructor
    · intro _
      trivial
    · intro _
      omega

theorem testBit_andNot (a b k : Nat) :
    (andNot a b).testBit k = (a.testBit k && !(b.testBit k)) := by
  rw [andNot, Nat.testBit_xor, Nat.testBit_and]
  cases a.testBit k <;> cases b.testBit k <;> rfl

theorem grantBits_inv (old bits : Nat)
    (h : old &&& 1 <<< Kind.ALL.val ≠ 0 → old = 1 <<< Kind.ALL.val) :
    grantBits old bits &&& 1 <<< Kind.ALL.val ≠ 0 →
      grantBits old bits = 1 <<< Kind.ALL.val := by
  unfold grantBits
  by_cases h1 : old &&& 1 <<< Kind.ALL.val ≠ 0
  · rw [if_pos h1]
    intro _
    exact h h1
  · rw [if_neg h1]
    by_cases h2 : bits &&& 1 <<< Kind.ALL.val ≠ 0
    · rw [if_pos h2]
      intro _
      rfl
    · rw [if_neg h2]
      intro hor
      exfalso
      rw [and_one_shiftLeft_ne_zero] at hor h1 h2
      rw [Nat.testBit_or] at hor
      simp only [not_true, Bool.or_eq_true] at *
      tauto

theorem revokeBits_inv (old bits p : Nat) (hp : revokeBits old bits = some p) :
    p &&& 1 <<< Kind.ALL.val ≠ 0 → p = 1 <<< Kind.ALL.val := by
  intro hall
  exfalso
  rw [and_one_shiftLeft_ne_zero] at hall
  simp only [revokeBits] at hp
  by_cases h1 : bits &&& 1 <<< Kind.ALL.val ≠ 0
  · rw [if_pos h1] at hp
    exact Option.noConfusion hp
  · rw [if_neg h1] at hp
    by_cases h2 : old &&& 1 <<< Kind.ALL.val ≠ 0
    · rw [if_pos h2] at hp
      split at hp
      · exact Option.noConfusion hp
      · have hpe : andNot allButAll bits = p := Option.some.inj hp
        rw [← hpe, testBit_andNot] at hall
        have hfalse : allButAll.testBit Kind.ALL.val = false := by decide
        rw [hfalse] at hall
        simp at hall
    · rw [if_neg h2] at hp
      split at hp
      · exact Option.noConfusion hp
      · have hpe : andNot old bits = p := Option.some.inj hp
        rw [← hpe, testBit_andNot] at hall
        have hfalse : old.testBit Kind.ALL.val = false := by
          cases hx : old.testBit Kind.ALL.val
          · rfl
          · exact absurd ((and_one_shiftLeft_ne_zero old Kind.ALL.val).mpr hx) h2
        rw [hfalse] at hall
        simp at hall

theorem grantUsers_inv (user bits : Nat) : ∀ (l : List UserPrivileges),
    (∀ e ∈ l, e.Privileges &&& 1 <<< Kind.ALL.val ≠ 0 →
      e.Privileges = 1 <<< Kind.ALL.val) →
    ∀ e ∈ grantUsers l user bits, e.Privileges &&& 1 <<< Kind.ALL.val ≠ 0 →
      e.Privileges = 1 <<< Kind.ALL.val := by
  intro l
  induction l with
  | nil =>
    intro h e he
    simp only [grantUsers, List.mem_singleton] at he
    subst he
    exact grantBits_inv 0 bits (by simp)
  | cons u rest ih =>
    intro h e he
    simp only [grantUsers] at he
    split at he
    · rcases List.mem_cons.mp he with h1 | h1
      · rw [h1]
        exact h u (by simp)
      · exact ih (fun x hx => h x (by simp [hx])) e h1
    · split at he
      · rcases List.mem_cons.mp he with h1 | h1
        · rw [h1]
          exact grantBits_inv u.Privileges bits (h u (by simp))
        · exact h e (by simp [h1])
      · rcases List.mem_cons.mp he with h1 | h1
        · rw [h1]
          exact grantBits_inv 0 bits (by simp)
        · rcases List.mem_cons.mp h1 with h2 | h2
          · rw [h2]
            exact h u (by simp)
          · exact h e (by simp [h2])

theorem revokeUsers_inv (user bits : Nat) : ∀ (l : List UserPrivileges),
    (∀ e ∈ l, e.Privileges &&& 1 <<< Kind.ALL.val ≠ 0 →
      e.Privileges = 1 <<< Kind.ALL.val) →
    ∀ e ∈ revokeUsers l user bits, e.Privileges &&& 1 <<< Kind.ALL.val ≠ 0 →
      e.Privileges = 1 <<< Kind.ALL.val := by
  intro l
  induction l with
  | nil =>
    intro _ e he
    simp [revokeUsers] at he
  | cons u rest ih =>
    intro h e he
    simp only [revokeUsers] at he
    split at he
    · rcases List.mem_cons.mp he with h1 | h1
      · rw [h1]
        exact h u (by simp)
      · exact ih (fun x hx => h x (by simp [hx])) e h1
    · split at he
      · split at he
        · rcases List.mem_cons.mp he with h1 | h1
          · rw [h1]
            exact h u (by simp)
          · exact h e (by simp [h1])
        · split at he
          · exact h e (by simp [he])
          · rcases List.mem_cons.mp he with h1 | h1
            · rename_i hp
              rw [h1]
              exact fun hane => revokeBits_inv u.Privileges bits _ hp hane
            · exact h e (by simp [h1])
      · rcases List.mem_cons.mp he with h1 | h1
        · rw [h1]
          exact h u (by simp)
        · exact h e (by simp [h1])

/-- C8: every sequence of Grant and Revoke operations preserves the
invariant that a user entry whose privilege bitfield has the `ALL` bit set
consists of exactly the `ALL` singleton bit. -/
theorem C8_grant_revoke_preserve_all_singleton (p : PrivilegeDescriptor)
    (ops : List PrivOp) (h : allSingletonInv p) :
    allSingletonInv (applyPrivOps p ops) := by
  induction ops generalizing p with
  | nil => exact h
  | cons op rest ih =>
    apply ih
    cases op with
    | grant u l => exact grantUsers_inv u (toBitField l) p.Users h
    | revoke u l => exact revokeUsers_inv u (toBitField l) p.Users h

/-- Witness for C8: starting from the default descriptor (root holds the
`ALL` singleton), a concrete grant / revoke sequence keeps the invariant. -/
theorem C8_grant_revoke_preserve_all_singleton_witness :
    allSingletonInv NewDefaultDatabasePrivilegeDescriptor ∧
    allSingletonInv (applyPrivOps NewDefaultDatabasePrivilegeDescriptor
      [.grant 3 [.SELECT], .grant 4 [.ALL], .revoke 4 [.SELECT]]) :=
  ⟨by unfold allSingletonInv NewDefaultDatabasePrivilegeDescriptor; decide,
    C8_grant_revoke_preserve_all_singleton _ _
      (by unfold allSingletonInv NewDefaultDatabasePrivilegeDescriptor; decide)⟩

/-- C10: `CheckPrivilege` returns `false` when the user has no entry,
`true` on every kind when the entry holds the `ALL` bit, and otherwise
exactly the value of the requested bit. -/
theorem C10_CheckPrivilege_spec (p : PrivilegeDescriptor) (user : Nat) (priv : Kind) :
    (p.findUser user = none → p.CheckPrivilege user priv = false) ∧
    (∀ up, p.findUser user = some up → up.Privileges &&& 1 <<< Kind.ALL.val ≠ 0 →
      p.CheckPrivilege user priv = true) ∧
    (∀ up, p.findUser user = some up → up.Privileges &&& 1 <<< Kind.ALL.val = 0 →
      (p.CheckPrivilege user priv = true ↔
        up.Privileges &&& 1 <<< priv.val ≠ 0)) := by
  refine ⟨fun h => ?_, fun up h hall => ?_, fun up h hall => ?_⟩
  · simp [PrivilegeDescriptor.CheckPrivilege, h]
  · simp [PrivilegeDescriptor.CheckPrivilege, h, hall]
  · simp [PrivilegeDescriptor.CheckPrivilege, h, hall]

/-- Witness for C10 on a concrete two-user descriptor (root holds ALL, user
3 holds only SELECT). -/
theorem C10_CheckPrivilege_spec_witness :
    PrivilegeDescriptor.CheckPrivilege ⟨[⟨0, 1⟩, ⟨3, 16⟩]⟩ 2 .SELECT = false ∧
    PrivilegeDescriptor.CheckPrivilege ⟨[⟨0, 1⟩, ⟨3, 16⟩]⟩ 0 .DROP = true ∧
    (PrivilegeDescriptor.CheckPrivilege ⟨[⟨0, 1⟩, ⟨3, 16⟩]⟩ 3 .DROP = true ↔
      (16 &&& 1 <<< Kind.DROP.val ≠ 0)) :=
  ⟨(C10_CheckPrivilege_spec ⟨[⟨0, 1⟩, ⟨3, 16⟩]⟩ 2 .SELECT).1 (by decide),
    (C10_CheckPrivilege_spec ⟨[⟨0, 1⟩, ⟨3, 16⟩]⟩ 0 .DROP).2.1 ⟨0, 1⟩ (by decide) (by decide),
    (C10_CheckPrivilege_spec ⟨[⟨0, 1⟩, ⟨3, 16⟩]⟩ 3 .DROP).2.2 ⟨3, 16⟩ (by decide) (by decide)⟩

/-! ## Replica model (src/storage/replica.go)

Supporting types from the proto / engine / keys packages are outside src/
and are modelled from the spec where used: timestamps are hybrid-logical-
clock pairs ordered lexicographically, keys are ordered ids (Nat) with 0 as
the empty end key denoting a point span, transactions are represented by
their IDs. -/

/-- proto.Timestamp (hybrid logical clock value).  Modelled from the spec:
wall time plus logical ticks, compared lexicographically. -/
structure Timestamp where
  WallTime : Int
  Logical : Int
deriving DecidableEq

/-- proto.ZeroTimestamp. -/
def zeroTS : Timestamp := ⟨0, 0⟩

/-- Timestamp.Less: lexicographic order (modelled from the spec). -/
def Timestamp.Less (a b : Timestamp) : Prop :=
  a.WallTime < b.WallTime ∨ (a.WallTime = b.WallTime ∧ a.Logical < b.Logical)

instance (a b : Timestamp) : Decidable (a.Less b) := by
  unfold Timestamp.Less
  infer_instance

/-- `a` is at or before `b`. -/
def tsLe (a b : Timestamp) : Prop := ¬ b.Less a

instance (a b : Timestamp) : Decidable (tsLe a b) := by
  unfold tsLe
  infer_instance

/-- Timestamp.Next: the immediate successor (one more logical tick). -/
def Timestamp.Next (t : Timestamp) : Timestamp := ⟨t.WallTime, t.Logical + 1⟩

/-- Timestamp.Forward: move up to `b` if it is later. -/
def Timestamp.Forward (a b : Timestamp) : Timestamp := if a.Less b then b else a

/-- Timestamp.Add: wall/logical offset. -/
def Timestamp.Add (t : Timestamp) (wall logical : Int) : Timestamp :=
  ⟨t.WallTime + wall, t.Logical + logical⟩

/-- proto.Lease: interval plus holder (raft node id; 0 in the zero value
loaded for a range that never had a lease). -/
structure Lease where
  Start : Timestamp
  Expiration : Timestamp
  RaftNodeID : Nat
deriving DecidableEq

/-- Lease.Covers (modelled from the spec: the lease interval
`[Start, Expiration)` contains the timestamp). -/
def Lease.Covers (l : Lease) (ts : Timestamp) : Prop :=
  tsLe l.Start ts ∧ ts.Less l.Expiration

instance (l : Lease) (ts : Timestamp) : Decidable (l.Covers ts) := by
  unfold Lease.Covers
  infer_instance

/-- Lease.OwnedBy. -/
def Lease.OwnedBy (l : Lease) (id : Nat) : Prop := l.RaftNodeID = id

instance (l : Lease) (id : Nat) : Decidable (l.OwnedBy id) := by
  unfold Lease.OwnedBy
  infer_instance

/-- The request methods handled by the Replica (the closed union the spec
prescribes for the proto request interface). -/
inductive Method where
  | Get
  | Put
  | ConditionalPut
  | Increment
  | Scan
  | ReverseScan
  | Delete
  | DeleteRange
  | ResolveIntent
  | ResolveIntentRange
  | EndTransaction
  | PushTxn
  | LeaderLease
  | AdminSplit
  | AdminMerge
deriving DecidableEq

/-- The `tsCacheMethods` sparse array from replica.go: methods which affect
or are affected by the timestamp cache. -/
def tsCacheMethods (m : Method) : Bool :=
  match m with
  | .Get => true
  | .Put => true
  | .ConditionalPut => true
  | .Increment => true
  | .Scan => true
  | .ReverseScan => true
  | .Delete => true
  | .DeleteRange => true
  | .ResolveIntent => true
  | .ResolveIntentRange => true
  | _ => false

/-- proto.IsReadOnly by method (the proto flags are outside src/; modelled
from the spec's read-only partition). -/
def Method.isReadOnly : Method → Bool
  | .Get => true
  | .Scan => true
  | .ReverseScan => true
  | _ => false

/-- proto.IsAdmin by method (modelled from the spec's admin partition). -/
def Method.isAdmin : Method → Bool
  | .AdminSplit => true
  | .AdminMerge => true
  | _ => false

/-- proto.IsWrite by method (modelled from the spec: admin, read-only and
write partition the request kinds). -/
def Method.isWrite (m : Method) : Bool := !m.isReadOnly && !m.isAdmin

/-- proto.ReadConsistencyType. -/
inductive ReadConsistency where
  | CONSISTENT
  | CONSENSUS
  | INCONSISTENT
deriving DecidableEq

/-- proto.ClientCmdID. -/
structure ClientCmdID where
  WallTime : Int
  Random : Int
deriving DecidableEq

/-- proto.RequestHeader, restricted to the fields replica.go reads.  `Txn`
is the transaction's id (nil pointer = `none`); `EndKey = 0` means no end
key (a point request). -/
structure RequestHeader where
  Key : Nat
  EndKey : Nat
  Timestamp : Timestamp
  CmdID : ClientCmdID
  UserPriority : Int
  Txn : Option Nat
  ReadConsistency : ReadConsistency
deriving DecidableEq

/-- A proto request: method, header, and the payload fields the modelled
executor consumes (`Value` for Put/Increment, `ExpValue` for
ConditionalPut). -/
structure Request where
  Method : Method
  Header : RequestHeader
  Value : Nat
  ExpValue : Option Nat
deriving DecidableEq

/-- proto.BatchRequest: its embedded batch-level RequestHeader plus the
sub-requests. -/
structure BatchRequest where
  Header : RequestHeader
  Requests : List Request
deriving DecidableEq

/-- proto.IsWrite on a batch: the union of the flags of the contained requests
(modelled from the spec: a batch is classified by its contents). -/
def BatchRequest.IsWrite (b : BatchRequest) : Bool :=
  b.Requests.any (fun r => r.Method.isWrite)

/-- `usesTimestampCache` from replica.go: the method must be in
`tsCacheMethods` and inconsistent reads never touch the cache. -/
def usesTimestampCache (r : Request) : Bool :=
  !(r.Method.isReadOnly && r.Header.ReadConsistency == .INCONSISTENT)
    && tsCacheMethods r.Method

/-- A single response (only the fields the claims observe: the timestamp the
apply loop stamps and the value the modelled executor produces). -/
structure Response where
  Timestamp : Timestamp
  Value : Option Nat
deriving DecidableEq

/-- proto.BatchResponse. -/
structure BatchResponse where
  Timestamp : Timestamp
  Responses : List Response
deriving DecidableEq

/-- BatchResponse.Add. -/
def BatchResponse.Add (b : BatchResponse) (r : Response) : BatchResponse :=
  ⟨b.Timestamp, b.Responses ++ [r]⟩

/-- The errors replica.go distinguishes.  `newNotLeaderError` fills range id,
leader and the origin replica; the descriptor lookup that converts store ids
to replicas is collapsed to carrying the raft node ids themselves. -/
inductive Err where
  | notLeader (rangeID leader replica : Nat)
  | replicaCorruption
  | conditionFailed
  | leaseRejected
  | rangeKeyMismatch
  | batchError (msg : String)
deriving DecidableEq

/-- Whether an error is a NotLeaderError. -/
def Err.isNotLeader : Err → Bool
  | .notLeader _ _ _ => true
  | _ => false

/-- proto.ResponseWithError. -/
structure ResponseWithError where
  Reply : Option BatchResponse
  Err : Option Err
deriving DecidableEq

/-- The user data of the range, as the modelled storage engine holds it:
an association list, newest binding first (Modelled from the spec: the MVCC
engine is an external collaborator providing point reads and writes; only
the latest value per key matters to the claims). -/
def Store := List (Nat × Nat)
deriving DecidableEq

def storeGet (s : Store) (k : Nat) : Option Nat :=
  (s.find? (fun kv => kv.1 == k)).map (fun kv => kv.2)

def storeDel (s : Store) (k : Nat) : Store :=
  s.filter (fun kv => kv.1 != k)

def storePut (s : Store) (k v : Nat) : Store := (k, v) :: storeDel s k

/-- The engine state a batch or the committed engine holds: user data, the
persisted response cache (spec: the response cache lives in the same storage
namespace as the data, so one batch commits both), and the applied-index
key written by `setAppliedIndex`. -/
structure EngineState where
  Data : Store
  RespCache : List (ClientCmdID × ResponseWithError)
  AppliedIndex : Nat
deriving DecidableEq

/-- `ResponseCache.GetResponse` (Modelled from the spec: CmdID-keyed lookup in
the storage namespace; an absent entry is the zero ResponseWithError, whose
nil `Reply` the caller treats as a miss). -/
def respCacheLookup (c : List (ClientCmdID × ResponseWithError)) (id : ClientCmdID) :
    ResponseWithError :=
  match c.find? (fun kv => kv.1 == id) with
  | none => ⟨none, none⟩
  | some kv => kv.2

/-- `ResponseCache.PutResponse` (Modelled from the spec: adds the entry to the
batch). -/
def respCachePut (c : List (ClientCmdID × ResponseWithError)) (id : ClientCmdID)
    (rwe : ResponseWithError) : List (ClientCmdID × ResponseWithError) :=
  (id, rwe) :: c

/-- One timestamp-cache record. -/
structure TsEntry where
  Start : Nat
  EndK : Nat
  Ts : Timestamp
  TxnID : Option Nat
  ReadOnly : Bool
deriving DecidableEq

/-- The timestamp cache (Modelled from the spec: an interval structure with a
low-water mark; spans record the most recent read/write timestamp tagged by
transaction id). -/
structure TimestampCache where
  LowWater : Timestamp
  Entries : List TsEntry
deriving DecidableEq

/-- The right end of a request span: an empty (0) end key denotes the point
span ending just after the key. -/
def spanEnd (s e : Nat) : Nat := if e = 0 then s + 1 else e

def spansOverlap (s1 e1 s2 e2 : Nat) : Bool :=
  decide (s1 < spanEnd s2 e2 ∧ s2 < spanEnd s1 e1)

/-- `TimestampCache.Add`. -/
def TimestampCache.Add (c : TimestampCache) (start endk : Nat) (ts : Timestamp)
    (txnID : Option Nat) (readOnly : Bool) : TimestampCache :=
  ⟨c.LowWater, ⟨start, endk, ts, txnID, readOnly⟩ :: c.Entries⟩

/-- `TimestampCache.GetMax` (Modelled from the spec: maximum read and write
timestamps over entries of other transactions overlapping the span, at least
the low-water mark). -/
def TimestampCache.GetMax (c : TimestampCache) (start endk : Nat) (txnID : Option Nat) :
    Timestamp × Timestamp :=
  c.Entries.foldl
    (fun acc e =>
      if spansOverlap start endk e.Start e.EndK
          && !(e.TxnID.isSome && txnID.isSome && e.TxnID == txnID) then
        if e.ReadOnly then (acc.1.Forward e.Ts, acc.2) else (acc.1, acc.2.Forward e.Ts)
      else acc)
    (c.LowWater, c.LowWater)

/-- The per-range state replica.go keeps (the pieces the claims touch):
range/store identity, the atomically published applied index and lease, the
engine, the in-memory timestamp cache and command queue (the latter as the
list of live insertion keys), and the node clock reading used to stamp
timestampless batches. -/
structure Replica where
  RangeID : Nat
  RaftNodeID : Nat
  StartKey : Nat
  EndKey : Nat
  AppliedIndex : Nat
  lease : Lease
  Engine : EngineState
  TsCache : TimestampCache
  CmdQ : List Nat
  ClockNow : Timestamp
deriving DecidableEq

/-- `newNotLeaderError`: empty unless the lease names a holder; the
descriptor's store-id-to-replica lookups are collapsed to the raft node ids
themselves. -/
def newNotLeaderError (r : Replica) (l : Lease) (originNode : Nat) : Err :=
  if l.RaftNodeID ≠ 0 then .notLeader r.RangeID l.RaftNodeID originNode
  else .notLeader 0 0 0

/-- `checkCmdHeader`: the range must cover the request span
(`ContainsKeyRange` on the descriptor is outside src/; modelled from the
spec: the descriptor covers `[StartKey, EndKey)` and an empty request end
key denotes the point span). -/
def checkCmdHeader (r : Replica) (h : RequestHeader) : Option Err :=
  if r.StartKey ≤ h.Key ∧ spanEnd h.Key h.EndKey ≤ r.EndKey then none
  else some .rangeKeyMismatch

/-- The loop body of `checkBatchRequest`, carrying the position and the
first request's read-only flag.  The Go `if readonly && INCONSISTENT { if
txn ... }` / `else if readonly && CONSENSUS` ladder is flattened: the two
consistency values are mutually exclusive. -/
def checkBatchLoop (b : BatchRequest) : List Request → Nat → Bool → Option Err
  | [], _, _ => none
  | args :: rest, i, isReadOnly0 =>
    if args.Method = .EndTransaction ∧ b.Requests.length ≠ 1 then
      some (.batchError "cannot mix EndTransaction with other operations in a batch")
    else if args.Header.Timestamp.WallTime ≠ b.Header.Timestamp.WallTime then
      some (.batchError "conflicting timestamp on call in batch")
    else if args.Header.UserPriority ≠ b.Header.UserPriority then
      some (.batchError "conflicting user priority on call in batch")
    else if args.Header.Txn ≠ b.Header.Txn then
      some (.batchError "conflicting transaction on call in transactional batch")
    else if args.Method.isReadOnly ∧ args.Header.ReadConsistency = .INCONSISTENT
        ∧ args.Header.Txn ≠ none then
      some (.batchError "cannot allow inconsistent reads within a transaction")
    else if args.Method.isReadOnly ∧ args.Header.ReadConsistency = .CONSENSUS then
      some (.batchError "consensus reads not implemented")
    else if i ≠ 0 ∧ args.Method.isReadOnly ≠ isReadOnly0 then
      some (.batchError "batch mixes read-only and write requests")
    else
      checkBatchLoop b rest (i + 1) (if i = 0 then args.Method.isReadOnly else isReadOnly0)

/-- `checkBatchRequest` from replica.go. -/
def checkBatchRequest (b : BatchRequest) : Option Err :=
  checkBatchLoop b b.Requests 0 false

/-- The zero-timestamp stamping done in `beginCmds` after the command-queue
wait: a timestampless batch gets the node clock, and each timestampless
sub-request gets the batch timestamp. -/
def stampBatch (now : Timestamp) (b : BatchRequest) : BatchRequest :=
  let bts := if b.Header.Timestamp = zeroTS then now else b.Header.Timestamp
  ⟨{ b.Header with Timestamp := bts },
    b.Requests.map (fun r =>
      if r.Header.Timestamp = zeroTS then
        { r with Header := { r.Header with Timestamp := bts } }
      else r)⟩

/-- `endCmds` from replica.go: on success record every cache-relevant
request's final span/timestamp in the timestamp cache; in all cases remove
the command-queue insertion keys. -/
def endCmds (r : Replica) (cmdKeys : List Nat) (bArgs : BatchRequest)
    (err : Option Err) : Replica :=
  let tsc :=
    if err = none then
      bArgs.Requests.foldl
        (fun tc args =>
          if usesTimestampCache args then
            tc.Add args.Header.Key args.Header.EndKey args.Header.Timestamp
              args.Header.Txn args.Method.isReadOnly
          else tc)
        r.TsCache
    else r.TsCache
  { r with
    TsCache := tsc,
    CmdQ := cmdKeys.foldl (fun q k => q.filter (fun x => x != k)) r.CmdQ }

/-- The outcome of `requestLeaderLease(ts)`: the error from proposing the
LeaderLeaseRequest through raft and waiting for its apply, plus the lease
visible afterwards.  The consensus transport is an external collaborator
(out of scope per the spec), so it enters the model as this oracle. -/
structure LeaseEnv where
  requestLease : Timestamp → Option Err × Lease

/-- `redirectOnOrAcquireLeaderLease` from replica.go.  Returns the error,
the lease the decision was based on, and whether a lease request was
proposed. -/
def redirectOnOrAcquireLeaderLease (env : LeaseEnv) (r : Replica) (ts : Timestamp) :
    Option Err × Lease × Bool :=
  if r.lease.Covers ts then
    if r.lease.OwnedBy r.RaftNodeID then (none, r.lease, false)
    else (some (newNotLeaderError r r.lease r.RaftNodeID), r.lease, false)
  else
    match env.requestLease ts with
    | (some .leaseRejected, lease') =>
      if lease'.Covers ts then
        (some (newNotLeaderError r lease' r.RaftNodeID), lease', true)
      else (some .leaseRejected, lease', true)
    | (err, lease') => (err, lease', true)

/-- One iteration of the timestamp-cache advance loop of `addWriteCmd`
(lines 857-880): push the running batch timestamp past a newer read, and
past a newer write when the request is non-transactional. -/
def advanceTsStep (tc : TimestampCache) (args : Request) (ts : Timestamp) : Timestamp :=
  if usesTimestampCache args then
    let m := tc.GetMax args.Header.Key args.Header.EndKey args.Header.Txn
    let ts1 := if ¬ m.1.Less ts then m.1.Next else ts
    if ¬ m.2.Less ts1 then
      if args.Header.Txn = none then m.2.Next else ts1
    else ts1
  else ts

/-- The timestamp-cache advance loop of `addWriteCmd` (lines 856-880): fold
`advanceTsStep` over the batch's requests. -/
def advanceTsLoop (tc : TimestampCache) : List Request → Timestamp → Timestamp
  | [], ts => ts
  | args :: rest, ts => advanceTsLoop tc rest (advanceTsStep tc args ts)

/-- The whole timestamp block of `addWriteCmd` (lines 856-889): advance the
batch timestamp against the cache, then forward every request timestamp to
it. -/
def advanceTimestamps (tc : TimestampCache) (b : BatchRequest) : BatchRequest :=
  let ts := advanceTsLoop tc b.Requests b.Header.Timestamp
  ⟨{ b.Header with Timestamp := ts },
    b.Requests.map (fun a =>
      { a with Header := { a.Header with Timestamp := a.Header.Timestamp.Forward ts } })⟩

/-- `addWriteCmd` up to the Raft proposal: header and batch validation, the
command-queue stamping, the leader-lease check, and the timestamp-cache
advance.  Returns the batch exactly as handed to `proposeRaftCommand`, or
the pre-proposal error.  (The command-queue wait, tracing, and the
post-apply `endCmds` are the surrounding effects; `endCmds` is modelled
separately.) -/
def addWriteCmd (env : LeaseEnv) (r : Replica) (bArgs : BatchRequest) :
    Except Err BatchRequest :=
  match checkCmdHeader r bArgs.Header with
  | some e => .error e
  | none =>
    match checkBatchRequest bArgs with
    | some e => .error e
    | none =>
      match (redirectOnOrAcquireLeaderLease env r
          (stampBatch r.ClockNow bArgs).Header.Timestamp).1 with
      | some e => .error e
      | none => .ok (advanceTimestamps r.TsCache (stampBatch r.ClockNow bArgs))

/-- The per-request executor dispatch (`executeCmd` lives outside src/;
Modelled from the spec: each sub-request runs against the batch, producing a
response or an error — Put/Delete/Increment mutate, Get reads,
ConditionalPut fails when the existing value differs from the expected one,
the remaining methods are kept effect-free). -/
def executeCmd (s : Store) (args : Request) : Store × Response × Option Err :=
  match args.Method with
  | .Put => (storePut s args.Header.Key args.Value, ⟨args.Header.Timestamp, none⟩, none)
  | .Get => (s, ⟨args.Header.Timestamp, storeGet s args.Header.Key⟩, none)
  | .Increment =>
    let newV := (storeGet s args.Header.Key).getD 0 + args.Value
    (storePut s args.Header.Key newV, ⟨args.Header.Timestamp, some newV⟩, none)
  | .ConditionalPut =>
    if storeGet s args.Header.Key = args.ExpValue then
      (storePut s args.Header.Key args.Value, ⟨args.Header.Timestamp, none⟩, none)
    else (s, ⟨args.Header.Timestamp, none⟩, some .conditionFailed)
  | .Delete => (storeDel s args.Header.Key, ⟨args.Header.Timestamp, none⟩, none)
  | _ => (s, ⟨args.Header.Timestamp, none⟩, none)

/-- Whether the apply-time leader-lease check fails for one sub-request: any
method but LeaderLease requires the lease to be owned by the origin node and
to cover the request timestamp. -/
def leaseCheckFails (l : Lease) (originNode : Nat) (args : Request) : Prop :=
  args.Method ≠ .LeaderLease ∧ (¬ l.OwnedBy originNode ∨ ¬ l.Covers args.Header.Timestamp)

instance (l : Lease) (o : Nat) (a : Request) : Decidable (leaseCheckFails l o a) := by
  unfold leaseCheckFails
  infer_instance

/-- Result of the request loop inside `applyRaftCommandInBatch`: either the
early `return batch, nil, NotLeaderError` (which skips the response-cache
write), or the fall-through with the accumulated reply and first error. -/
inductive LoopOutcome where
  | notLeaderReturn (batch : EngineState) (err : Err)
  | done (batch : EngineState) (bReply : BatchResponse) (rErr : Option Err)
deriving DecidableEq

/-- The request loop of `applyRaftCommandInBatch` (lines 1054-1096): check
the lease per sub-request, execute into the batch, accumulate responses; an
execution error resets the reply to the zero BatchResponse and breaks.
(Skipped-intent resolution and tracing are external effects.) -/
def applyLoop (r : Replica) (originNode : Nat) :
    List Request → EngineState → BatchResponse → LoopOutcome
  | [], batch, bReply => .done batch bReply none
  | args :: rest, batch, bReply =>
    if leaseCheckFails r.lease originNode args then
      .notLeaderReturn batch (newNotLeaderError r r.lease originNode)
    else
      match executeCmd batch.Data args with
      | (data', reply, none) =>
        applyLoop r originNode rest { batch with Data := data' }
          (bReply.Add { reply with Timestamp := args.Header.Timestamp })
      | (data', _, some e) => .done { batch with Data := data' } ⟨zeroTS, []⟩ (some e)

/-- `applyRaftCommandInBatch` from replica.go: open a batch (a copy of the
engine), consult the response cache for write batches (idempotent retry),
otherwise run the request loop; then, for write batches that did not take
the early NotLeaderError return, flush stats on success or reset the batch
on failure, and write the response-cache entry.  Returns the batch and the
reply/error exactly as the Go function does. -/
def applyRaftCommandInBatch (r : Replica) (originNode : Nat) (bArgs : BatchRequest) :
    EngineState × Option BatchResponse × Option Err :=
  let batch := r.Engine
  let cached := respCacheLookup batch.RespCache bArgs.Header.CmdID
  if bArgs.IsWrite ∧ cached.Reply ≠ none then (batch, cached.Reply, cached.Err)
  else
    match applyLoop r originNode bArgs.Requests batch ⟨bArgs.Header.Timestamp, []⟩ with
    | .notLeaderReturn batch' err => (batch', none, some err)
    | .done batch' bReply rErr =>
      if bArgs.IsWrite then
        let batch2 := if rErr = none then batch' else r.Engine
        ({ batch2 with
            RespCache := respCachePut batch2.RespCache bArgs.Header.CmdID
              ⟨some bReply, rErr⟩ },
          some bReply, rErr)
      else (batch', some bReply, rErr)

/-- The outcome of `applyRaftCommand`: `fatal` models `log.Fatalc` (the
process dies; no value is returned), `res` the normal return. -/
inductive ApplyResult where
  | fatal
  | res (reply : Option BatchResponse) (err : Option Err)
deriving DecidableEq

/-- Whether an ApplyResult is a returned ReplicaCorruptionError. -/
def ApplyResult.isCorruption : ApplyResult → Bool
  | .res _ (some .replicaCorruption) => true
  | _ => false

/-- `applyRaftCommand` from replica.go: fatal on index 0 (`index <= 0` on
uint64), a ReplicaCorruptionError without touching anything when the index
does not advance, otherwise run the batch helper, write the applied index
into the batch, commit it (the modelled engine commits atomically), and
publish the new applied index.  Gossip/split triggers and the event feed are
external effects. -/
def applyRaftCommand (r : Replica) (index originNode : Nat) (bArgs : BatchRequest) :
    Replica × ApplyResult :=
  if index = 0 then (r, .fatal)
  else if index ≤ r.AppliedIndex then (r, .res none (some .replicaCorruption))
  else
    match applyRaftCommandInBatch r originNode bArgs with
    | (batch, bReply, rErr) =>
      ({ r with Engine := { batch with AppliedIndex := index }, AppliedIndex := index },
        .res bReply rErr)

/-- A sequence of applies (index, origin node, batch), as delivered in log
order by the transport. -/
def applyRaftCommands (r : Replica) (cmds : List (Nat × Nat × BatchRequest)) : Replica :=
  cmds.foldl (fun st c => (applyRaftCommand st c.1 c.2.1 c.2.2).1) r

/-! ## Claim theorems over the Replica model -/

theorem tsFoldAdd_mem_mono (l : List Request) :
    ∀ (tc : TimestampCache) (x : TsEntry), x ∈ tc.Entries →
    x ∈ (l.foldl
      (fun tc args =>
        if usesTimestampCache args then
          tc.Add args.Header.Key args.Header.EndKey args.Header.Timestamp
            args.Header.Txn args.Method.isReadOnly
        else tc)
      tc).Entries := by
  induction l with
  | nil =>
    intro tc x hx
    exact hx
  | cons a rest ih =>
    intro tc x hx
    simp only [List.foldl_cons]
    apply ih
    by_cases hu : usesTimestampCache a
    · simp [hu, TimestampCache.Add, hx]
    · simp [hu, hx]

theorem tsFoldAdd_mem (l : List Request) :
    ∀ (tc : TimestampCache) (a : Request), a ∈ l → usesTimestampCache a = true →
    (⟨a.Header.Key, a.Header.EndKey, a.Header.Timestamp, a.Header.Txn,
      a.Method.isReadOnly⟩ : TsEntry)
      ∈ (l.foldl
        (fun tc args =>
          if usesTimestampCache args then
            tc.Add args.Header.Key args.Header.EndKey args.Header.Timestamp
              args.Header.Txn args.Method.isReadOnly
          else tc)
        tc).Entries := by
  induction l with
  | nil =>
    intro tc a ha
    simp at ha
  | cons b rest ih =>
    intro tc a ha hu
    rcases List.mem_cons.mp ha with h1 | h1
    · subst h1
      simp only [List.foldl_cons, hu, if_pos]
      apply tsFoldAdd_mem_mono
      simp [TimestampCache.Add]
    · simp only [List.foldl_cons]
      exact ih _ a h1 hu

theorem foldRemove_not_mem_of_not_mem (ks : List Nat) :
    ∀ (q : List Nat) (k : Nat), k ∉ q →
    k ∉ ks.foldl (fun q k => q.filter (fun x => x != k)) q := by
  induction ks with
  | nil =>
    intro q k hk
    exact hk
  | cons j rest ih =>
    intro q k hk
    simp only [List.foldl_cons]
    apply ih
    intro hmem
    exact hk (List.mem_of_mem_filter hmem)

theorem foldRemove_not_mem (ks : List Nat) :
    ∀ (q : List Nat) (k : Nat), k ∈ ks →
    k ∉ ks.foldl (fun q k => q.filter (fun x => x != k)) q := by
  induction ks with
  | nil =>
    intro q k hk
    simp at hk
  | cons j rest ih =>
    intro q k hk
    simp only [List.foldl_cons]
    rcases List.mem_cons.mp hk with h1 | h1
    · subst h1
      apply foldRemove_not_mem_of_not_mem
      simp
    · exact ih _ k h1

/-- C6: when a command completes, the timestamp cache receives the final
request timestamps only on success (`err = none`) and is untouched on
failure; in both cases every command-queue key registered for the command is
removed. -/
theorem C6_endCmds_spec (r : Replica) (cmdKeys : List Nat) (bArgs : BatchRequest)
    (err : Option Err) :
    (err ≠ none → (endCmds r cmdKeys bArgs err).TsCache = r.TsCache) ∧
    (err = none → ∀ a ∈ bArgs.Requests, usesTimestampCache a = true →
      (⟨a.Header.Key, a.Header.EndKey, a.Header.Timestamp, a.Header.Txn,
        a.Method.isReadOnly⟩ : TsEntry)
        ∈ (endCmds r cmdKeys bArgs err).TsCache.Entries) ∧
    (∀ k ∈ cmdKeys, k ∉ (endCmds r cmdKeys bArgs err).CmdQ) := by
  refine ⟨fun hne => ?_, fun he a ha hu => ?_, fun k hk => ?_⟩
  · simp [endCmds, hne]
  · simp only [endCmds, he, if_pos]
    exact tsFoldAdd_mem bArgs.Requests r.TsCache a ha hu
  · simp only [endCmds]
    exact foldRemove_not_mem cmdKeys r.CmdQ k hk

/-- A small concrete replica for witnesses; applied index and queue keys are
parameters. -/
def sampleReplica (ai : Nat) (q : List Nat) : Replica :=
  ⟨1, 1, 0, 10, ai, ⟨⟨0, 0⟩, ⟨0, 0⟩, 0⟩, ⟨[], [], 0⟩, ⟨⟨0, 0⟩, []⟩, q, ⟨0, 0⟩⟩

/-- A concrete Put request at key 2, wall time 9, command id (1,1). -/
def samplePut : Request :=
  ⟨.Put, ⟨2, 0, ⟨9, 0⟩, ⟨1, 1⟩, 1, none, .CONSISTENT⟩, 5, none⟩

/-- The singleton batch wrapping `samplePut`. -/
def samplePutBatch : BatchRequest :=
  ⟨⟨2, 0, ⟨9, 0⟩, ⟨1, 1⟩, 1, none, .CONSISTENT⟩, [samplePut]⟩

/-- An empty batch with a zero header. -/
def emptyBatch : BatchRequest :=
  ⟨⟨0, 0, ⟨0, 0⟩, ⟨0, 0⟩, 1, none, .CONSISTENT⟩, []⟩

/-- Witness for C6 on a concrete replica: success updates the cache with the
Put's span and the registered queue keys disappear. -/
theorem C6_endCmds_spec_witness :
    ((⟨2, 0, ⟨9, 0⟩, none, false⟩ : TsEntry)
      ∈ (endCmds (sampleReplica 0 [7, 9]) [7] samplePutBatch none).TsCache.Entries) ∧
    (7 ∉ (endCmds (sampleReplica 0 [7, 9]) [7] samplePutBatch none).CmdQ) :=
  ⟨(C6_endCmds_spec (sampleReplica 0 [7, 9]) [7] samplePutBatch none).2.1
      rfl samplePut (by decide) (by decide),
    (C6_endCmds_spec (sampleReplica 0 [7, 9]) [7] samplePutBatch none).2.2 7 (by decide)⟩

/-- C4: with a lease covering the timestamp, `redirectOnOrAcquireLeaderLease`
returns success when this node owns it, and a NotLeaderError naming the
holder — proposing nothing — when another node owns it. -/
theorem C4_redirect_lease_spec (env : LeaseEnv) (r : Replica) (ts : Timestamp)
    (hcov : r.lease.Covers ts) :
    (r.lease.OwnedBy r.RaftNodeID →
      redirectOnOrAcquireLeaderLease env r ts = (none, r.lease, false)) ∧
    (¬ r.lease.OwnedBy r.RaftNodeID → r.lease.RaftNodeID ≠ 0 →
      redirectOnOrAcquireLeaderLease env r ts
        = (some (.notLeader r.RangeID r.lease.RaftNodeID r.RaftNodeID),
            r.lease, false)) := by
  constructor
  · intro hown
    simp [redirectOnOrAcquireLeaderLease, hcov, hown]
  · intro hnot hnz
    simp [redirectOnOrAcquireLeaderLease, hcov, hnot, newNotLeaderError, hnz]

/-- Witness for C4 (the spec's redirect scenario): node 1 holds the lease
for wall times 0-1000; node 2 sees a request at wall time 500 and is
redirected to node 1 without proposing. -/
theorem C4_redirect_lease_spec_witness :
    redirectOnOrAcquireLeaderLease
      ⟨fun _ => (none, ⟨⟨0, 0⟩, ⟨0, 0⟩, 0⟩)⟩
      ⟨1, 2, 0, 10, 0, ⟨⟨0, 0⟩, ⟨1000, 0⟩, 1⟩, ⟨[], [], 0⟩, ⟨⟨0, 0⟩, []⟩, [], ⟨0, 0⟩⟩
      ⟨500, 0⟩
      = (some (.notLeader 1 1 2), ⟨⟨0, 0⟩, ⟨1000, 0⟩, 1⟩, false) :=
  (C4_redirect_lease_spec _ _ _ (by decide)).2 (by decide) (by decide)

theorem applyStep_mono (r : Replica) (i o : Nat) (b : BatchRequest) :
    r.AppliedIndex ≤ (applyRaftCommand r i o b).1.AppliedIndex := by
  unfold applyRaftCommand
  by_cases h0 : i = 0
  · rw [if_pos h0]
  · rw [if_neg h0]
    by_cases h1 : i ≤ r.AppliedIndex
    · rw [if_pos h1]
    · rw [if_neg h1]
      rcases hx : applyRaftCommandInBatch r o b with ⟨batch, bReply, rErr⟩
      show r.AppliedIndex ≤ i
      omega

/-- C2 counterexample: at log index 0 the code calls `log.Fatalc` (modelled
as the `fatal` outcome) instead of returning a ReplicaCorruptionError, even
though `0 ≤ appliedIndex` always holds. -/
theorem C2_counterexample :
    0 ≤ (⟨1, 1, 0, 10, 0, ⟨⟨0, 0⟩, ⟨0, 0⟩, 0⟩, ⟨[], [], 0⟩, ⟨⟨0, 0⟩, []⟩, [],
        ⟨0, 0⟩⟩ : Replica).AppliedIndex ∧
    (applyRaftCommand
      ⟨1, 1, 0, 10, 0, ⟨⟨0, 0⟩, ⟨0, 0⟩, 0⟩, ⟨[], [], 0⟩, ⟨⟨0, 0⟩, []⟩, [], ⟨0, 0⟩⟩
      0 1 ⟨⟨0, 0, ⟨0, 0⟩, ⟨0, 0⟩, 1, none, .CONSISTENT⟩, []⟩).2 = .fatal ∧
    ApplyResult.fatal.isCorruption = false := by
  refine ⟨by decide, ?_, by decide⟩
  rfl

/-- C2 amended: for every log index `i` with `1 ≤ i ≤ appliedIndex`,
`applyRaftCommand` returns a ReplicaCorruptionError leaving the replica
unchanged (index 0 instead hits the fatal-crash branch), and the applied
index never decreases across any sequence of applies. -/
theorem C2_applied_index_monotone :
    (∀ (r : Replica) (index originNode : Nat) (bArgs : BatchRequest),
      1 ≤ index → index ≤ r.AppliedIndex →
      applyRaftCommand r index originNode bArgs
        = (r, .res none (some .replicaCorruption))) ∧
    (∀ (r : Replica) (cmds : List (Nat × Nat × BatchRequest)),
      r.AppliedIndex ≤ (applyRaftCommands r cmds).AppliedIndex) := by
  constructor
  · intro r index originNode bArgs h1 h2
    unfold applyRaftCommand
    rw [if_neg (by omega), if_pos h2]
  · intro r cmds
    induction cmds generalizing r with
    | nil => simp [applyRaftCommands]
    | cons c rest ih =>
      calc r.AppliedIndex
          ≤ (applyRaftCommand r c.1 c.2.1 c.2.2).1.AppliedIndex :=
            applyStep_mono r c.1 c.2.1 c.2.2
        _ ≤ (applyRaftCommands (applyRaftCommand r c.1 c.2.1 c.2.2).1 rest).AppliedIndex :=
            ih _

/-- Witness for the amended C2 at a replica with applied index 5 and log
index 3. -/
theorem C2_applied_index_monotone_witness :
    applyRaftCommand (sampleReplica 5 []) 3 1 emptyBatch
      = (sampleReplica 5 [], .res none (some .replicaCorruption)) ∧
    (sampleReplica 5 []).AppliedIndex
      ≤ (applyRaftCommands (sampleReplica 5 []) [(3, 1, emptyBatch)]).AppliedIndex :=
  ⟨C2_applied_index_monotone.1 (sampleReplica 5 []) 3 1 emptyBatch
      (by decide) (by decide),
    C2_applied_index_monotone.2 (sampleReplica 5 []) [(3, 1, emptyBatch)]⟩

/-- All per-request checks of `checkBatchRequest` except the read-only
mixing check. -/
def reqChecksPass (b : BatchRequest) (args : Request) : Prop :=
  ¬(args.Method = .EndTransaction ∧ b.Requests.length ≠ 1) ∧
  args.Header.Timestamp.WallTime = b.Header.Timestamp.WallTime ∧
  args.Header.UserPriority = b.Header.UserPriority ∧
  args.Header.Txn = b.Header.Txn ∧
  ¬(args.Method.isReadOnly = true ∧ args.Header.ReadConsistency = .INCONSISTENT
    ∧ args.Header.Txn ≠ none) ∧
  ¬(args.Method.isReadOnly = true ∧ args.Header.ReadConsistency = .CONSENSUS)

instance (b : BatchRequest) (args : Request) : Decidable (reqChecksPass b args) := by
  unfold reqChecksPass
  infer_instance

theorem checkBatchLoop_none_iff (b : BatchRequest) :
    ∀ (l : List Request) (i : Nat) (ro : Bool), i ≠ 0 →
    (checkBatchLoop b l i ro = none ↔
      ∀ a ∈ l, reqChecksPass b a ∧ a.Method.isReadOnly = ro) := by
  intro l
  induction l with
  | nil =>
    intro i ro _
    simp [checkBatchLoop]
  | cons args rest ih =>
    intro i ro hi
    simp only [checkBatchLoop]
    by_cases c1 : args.Method = .EndTransaction ∧ b.Requests.length ≠ 1
    · rw [if_pos c1]
      simp only [reduceCtorEq, false_iff]
      intro hco
      exact ((hco args (by simp)).1.1 c1)
    rw [if_neg c1]
    by_cases c2 : args.Header.Timestamp.WallTime ≠ b.Header.Timestamp.WallTime
    · rw [if_pos c2]
      simp only [reduceCtorEq, false_iff]
      intro hco
      exact c2 (hco args (by simp)).1.2.1
    rw [if_neg c2]
    by_cases c3 : args.Header.UserPriority ≠ b.Header.UserPriority
    · rw [if_pos c3]
      simp only [reduceCtorEq, false_iff]
      intro hco
      exact c3 (hco args (by simp)).1.2.2.1
    rw [if_neg c3]
    by_cases c4 : args.Header.Txn ≠ b.Header.Txn
    · rw [if_pos c4]
      simp only [reduceCtorEq, false_iff]
      intro hco
      exact c4 (hco args (by simp)).1.2.2.2.1
    rw [if_neg c4]
    by_cases c5 : args.Method.isReadOnly = true
        ∧ args.Header.ReadConsistency = .INCONSISTENT ∧ args.Header.Txn ≠ none
    · rw [if_pos c5]
      simp only [reduceCtorEq, false_iff]
      intro hco
      exact (hco args (by simp)).1.2.2.2.2.1 c5
    rw [if_neg c5]
    by_cases c6 : args.Method.isReadOnly = true ∧ args.Header.ReadConsistency = .CONSENSUS
    · rw [if_pos c6]
      simp only [reduceCtorEq, false_iff]
      intro hco
      exact (hco args (by simp)).1.2.2.2.2.2 c6
    rw [if_neg c6]
    by_cases c7 : i ≠ 0 ∧ args.Method.isReadOnly ≠ ro
    · rw [if_pos c7]
      simp only [reduceCtorEq, false_iff]
      intro hco
      exact c7.2 (hco args (by simp)).2
    rw [if_neg c7]
    rw [if_neg hi]
    rw [ih (i + 1) ro (by omega)]
    constructor
    · intro hrest
      intro a ha
      rcases List.mem_cons.mp ha with h1 | h1
      · rw [h1]
        refine ⟨⟨c1, by omega, by omega, by tauto, c5, c6⟩, ?_⟩
        rcases Decidable.not_and_iff_or_not.mp c7 with h | h
        · exact absurd hi h
        · exact Decidable.not_not.mp h
      · exact hrest a h1
    · intro hall
      intro a ha
      exact hall a (by simp [ha])

theorem checkBatchRequest_none_iff (b : BatchRequest) :
    checkBatchRequest b = none ↔
      (∀ a ∈ b.Requests, reqChecksPass b a) ∧
      (∀ a1 ∈ b.Requests, ∀ a2 ∈ b.Requests,
        a1.Method.isReadOnly = a2.Method.isReadOnly) := by
  unfold checkBatchRequest
  rcases hl : b.Requests with _ | ⟨a0, rest⟩
  · simp [checkBatchLoop]
  · simp only [checkBatchLoop]
    by_cases c1 : a0.Method = .EndTransaction ∧ b.Requests.length ≠ 1
    · rw [if_pos c1]
      simp only [reduceCtorEq, false_iff]
      intro hco
      exact hco.1 a0 (by simp) |>.1 c1
    rw [if_neg c1]
    by_cases c2 : a0.Header.Timestamp.WallTime ≠ b.Header.Timestamp.WallTime
    · rw [if_pos c2]
      simp only [reduceCtorEq, false_iff]
      intro hco
      exact c2 (hco.1 a0 (by simp)).2.1
    rw [if_neg c2]
    by_cases c3 : a0.Header.UserPriority ≠ b.Header.UserPriority
    · rw [if_pos c3]
      simp only [reduceCtorEq, false_iff]
      intro hco
      exact c3 (hco.1 a0 (by simp)).2.2.1
    rw [if_neg c3]
    by_cases c4 : a0.Header.Txn ≠ b.Header.Txn
    · rw [if_pos c4]
      simp only [reduceCtorEq, false_iff]
      intro hco
      exact c4 (hco.1 a0 (by simp)).2.2.2.1
    rw [if_neg c4]
    by_cases c5 : a0.Method.isReadOnly = true
        ∧ a0.Header.ReadConsistency = .INCONSISTENT ∧ a0.Header.Txn ≠ none
    · rw [if_pos c5]
      simp only [reduceCtorEq, false_iff]
      intro hco
      exact (hco.1 a0 (by simp)).2.2.2.2.1 c5
    rw [if_neg c5]
    by_cases c6 : a0.Method.isReadOnly = true ∧ a0.Header.ReadConsistency = .CONSENSUS
    · rw [if_pos c6]
      simp only [reduceCtorEq, false_iff]
      intro hco
      exact (hco.1 a0 (by simp)).2.2.2.2.2 c6
    rw [if_neg c6]
    rw [if_neg (by simp)]
    rw [if_pos trivial]
    rw [checkBatchLoop_none_iff b rest (0 + 1) a0.Method.isReadOnly (by omega)]
    constructor
    · intro hrest
      constructor
      · intro a ha
        rcases List.mem_cons.mp ha with h1 | h1
        · rw [h1]
          exact ⟨c1, by omega, by omega, by tauto, c5, c6⟩
        · exact (hrest a h1).1
      · intro a1 ha1 a2 ha2
        have key : ∀ x ∈ a0 :: rest, x.Method.isReadOnly = a0.Method.isReadOnly := by
          intro x hx
          rcases List.mem_cons.mp hx with h1 | h1
          · rw [h1]
          · exact (hrest x h1).2
        rw [key a1 ha1, key a2 ha2]
    · intro hall
      intro a ha
      refine ⟨hall.1 a (by simp [ha]), ?_⟩
      exact hall.2 a (by simp [ha]) a0 (by simp)

/-- C7: `checkBatchRequest` rejects exactly the batches containing an
EndTransaction beside other requests, a sub-request whose wall time, user
priority or transaction differs from the batch header, a mix of read-only
and write requests, an inconsistent read inside a transaction, or a
CONSENSUS read; it returns nil for every other batch. -/
theorem C7_checkBatchRequest_spec (b : BatchRequest) :
    checkBatchRequest b = none ↔
      ¬ ((∃ r ∈ b.Requests, r.Method = .EndTransaction ∧ b.Requests.length ≠ 1) ∨
        (∃ r ∈ b.Requests,
          r.Header.Timestamp.WallTime ≠ b.Header.Timestamp.WallTime ∨
          r.Header.UserPriority ≠ b.Header.UserPriority ∨
          r.Header.Txn ≠ b.Header.Txn) ∨
        (∃ r1 ∈ b.Requests, ∃ r2 ∈ b.Requests,
          r1.Method.isReadOnly ≠ r2.Method.isReadOnly) ∨
        (∃ r ∈ b.Requests, r.Method.isReadOnly = true ∧
          r.Header.ReadConsistency = .INCONSISTENT ∧ r.Header.Txn ≠ none) ∨
        (∃ r ∈ b.Requests, r.Method.isReadOnly = true ∧
          r.Header.ReadConsistency = .CONSENSUS)) := by
  rw [checkBatchRequest_none_iff]
  push_neg
  unfold reqChecksPass
  constructor
  · intro h
    refine ⟨?_, ?_, ?_, ?_, ?_⟩
    · intro r hr hET
      by_contra hlen
      exact (h.1 r hr).1 ⟨hET, hlen⟩
    · intro r hr
      refine ⟨(h.1 r hr).2.1, (h.1 r hr).2.2.1, (h.1 r hr).2.2.2.1⟩
    · intro r1 hr1 r2 hr2
      exact h.2 r1 hr1 r2 hr2
    · intro r hr hro hin
      by_contra htxn
      exact (h.1 r hr).2.2.2.2.1 ⟨hro, hin, htxn⟩
    · intro r hr hro hcons
      exact (h.1 r hr).2.2.2.2.2 ⟨hro, hcons⟩
  · intro h
    refine ⟨fun a ha => ⟨?_, (h.2.1 a ha).1, (h.2.1 a ha).2.1, (h.2.1 a ha).2.2,
      ?_, ?_⟩, h.2.2.1⟩
    · intro hc
      exact hc.2 (h.1 a ha hc.1)
    · intro hc
      exact hc.2.2 (h.2.2.2.1 a ha hc.1 hc.2.1)
    · intro hc
      exact h.2.2.2.2 a ha hc.1 hc.2

theorem tsLe_trans (a b c : Timestamp) (h1 : tsLe a b) (h2 : tsLe b c) : tsLe a c := by
  obtain ⟨aw, al⟩ := a
  obtain ⟨bw, bl⟩ := b
  obtain ⟨cw, cl⟩ := c
  unfold tsLe Timestamp.Less at *
  simp only at *
  omega

theorem less_imp_next_le (a b : Timestamp) (h : a.Less b) : tsLe a.Next b := by
  obtain ⟨aw, al⟩ := a
  obtain ⟨bw, bl⟩ := b
  unfold tsLe Timestamp.Less Timestamp.Next at *
  simp only at *
  omega

theorem not_less_imp_next_le (a b : Timestamp) (h : ¬ b.Less a) : tsLe a b.Next := by
  obtain ⟨aw, al⟩ := a
  obtain ⟨bw, bl⟩ := b
  unfold tsLe Timestamp.Less Timestamp.Next at *
  simp only at *
  omega

theorem tsLe_refl (a : Timestamp) : tsLe a a := by
  obtain ⟨w, l⟩ := a
  unfold tsLe Timestamp.Less
  simp only
  omega

theorem tsLe_next_self (a : Timestamp) : tsLe a a.Next := by
  obtain ⟨w, l⟩ := a
  unfold tsLe Timestamp.Less Timestamp.Next
  simp only
  omega

theorem not_less_le (a b : Timestamp) (h : ¬ a.Less b) : tsLe b a := by
  obtain ⟨aw, al⟩ := a
  obtain ⟨bw, bl⟩ := b
  unfold tsLe Timestamp.Less at *
  simp only at *
  omega

theorem advanceTsStep_le (tc : TimestampCache) (args : Request) (ts : Timestamp) :
    tsLe ts (advanceTsStep tc args ts) := by
  simp only [advanceTsStep]
  by_cases hu : usesTimestampCache args = true
  · rw [if_pos hu]
    set m := tc.GetMax args.Header.Key args.Header.EndKey args.Header.Txn with hm
    by_cases h1 : ¬ m.1.Less ts
    · rw [if_pos h1]
      by_cases h2 : ¬ m.2.Less m.1.Next
      · rw [if_pos h2]
        by_cases h3 : args.Header.Txn = none
        · rw [if_pos h3]
          have s1 : tsLe ts m.1.Next := not_less_imp_next_le ts m.1 h1
          have s2 : tsLe m.1.Next m.2 := not_less_le _ _ h2
          exact tsLe_trans _ _ _ (tsLe_trans _ _ _ s1 s2) (tsLe_next_self m.2)
        · rw [if_neg h3]
          exact not_less_imp_next_le ts m.1 h1
      · rw [if_neg h2]
        exact not_less_imp_next_le ts m.1 h1
    · rw [if_neg h1]
      by_cases h2 : ¬ m.2.Less ts
      · rw [if_pos h2]
        by_cases h3 : args.Header.Txn = none
        · rw [if_pos h3]
          exact not_less_imp_next_le ts m.2 h2
        · rw [if_neg h3]
          exact tsLe_refl ts
      · rw [if_neg h2]
        exact tsLe_refl ts
  · rw [if_neg hu]
    exact tsLe_refl ts

theorem advanceTsLoop_mono (tc : TimestampCache) (l : List Request) :
    ∀ ts, tsLe ts (advanceTsLoop tc l ts) := by
  induction l with
  | nil =>
    intro ts
    exact tsLe_refl ts
  | cons args rest ih =>
    intro ts
    unfold advanceTsLoop
    exact tsLe_trans _ _ _ (advanceTsStep_le tc args ts) (ih _)

theorem advanceTsStep_past_read (tc : TimestampCache) (args : Request) (ts : Timestamp)
    (hu : usesTimestampCache args = true)
    (hr : ¬ (tc.GetMax args.Header.Key args.Header.EndKey args.Header.Txn).1.Less ts) :
    tsLe (tc.GetMax args.Header.Key args.Header.EndKey args.Header.Txn).1.Next
      (advanceTsStep tc args ts) := by
  simp only [advanceTsStep]
  rw [if_pos hu]
  set m := tc.GetMax args.Header.Key args.Header.EndKey args.Header.Txn with hm
  rw [if_pos hr]
  by_cases h2 : ¬ m.2.Less m.1.Next
  · rw [if_pos h2]
    by_cases h3 : args.Header.Txn = none
    · rw [if_pos h3]
      exact tsLe_trans _ _ _ (not_less_le _ _ h2) (tsLe_next_self m.2)
    · rw [if_neg h3]
      exact tsLe_refl _
  · rw [if_neg h2]
    exact tsLe_refl _

theorem advanceTsLoop_past_read (tc : TimestampCache) (l : List Request) :
    ∀ (ts : Timestamp) (a : Request), a ∈ l → usesTimestampCache a = true →
    ¬ (tc.GetMax a.Header.Key a.Header.EndKey a.Header.Txn).1.Less ts →
    tsLe (tc.GetMax a.Header.Key a.Header.EndKey a.Header.Txn).1.Next
      (advanceTsLoop tc l ts) := by
  induction l with
  | nil =>
    intro ts a ha
    simp at ha
  | cons b rest ih =>
    intro ts a ha hu hr
    unfold advanceTsLoop
    rcases List.mem_cons.mp ha with h1 | h1
    · rw [h1] at hu hr ⊢
      exact tsLe_trans _ _ _ (advanceTsStep_past_read tc b ts hu hr)
        (advanceTsLoop_mono tc rest _)
    · by_cases hcase :
        (tc.GetMax a.Header.Key a.Header.EndKey a.Header.Txn).1.Less
          (advanceTsStep tc b ts)
      · exact tsLe_trans _ _ _ (less_imp_next_le _ _ hcase)
          (advanceTsLoop_mono tc rest _)
      · exact ih _ a h1 hu hcase

/-- C5: if `addWriteCmd` reaches the proposal, and the timestamp cache holds
a read of some cache-relevant request's span by another transaction at or
above the batch timestamp, then the batch proposed to Raft carries a
timestamp at or past the successor of that read timestamp. -/
theorem C5_addWriteCmd_ts_advance (env : LeaseEnv) (r : Replica)
    (bArgs proposed : BatchRequest)
    (hok : addWriteCmd env r bArgs = .ok proposed)
    (hts : ¬ bArgs.Header.Timestamp = zeroTS)
    (a : Request) (ha : a ∈ bArgs.Requests)
    (hu : usesTimestampCache a = true)
    (hr : ¬ (r.TsCache.GetMax a.Header.Key a.Header.EndKey a.Header.Txn).1.Less
      bArgs.Header.Timestamp) :
    tsLe (r.TsCache.GetMax a.Header.Key a.Header.EndKey a.Header.Txn).1.Next
      proposed.Header.Timestamp := by
  unfold addWriteCmd at hok
  split at hok
  · exact Except.noConfusion hok
  · split at hok
    · exact Except.noConfusion hok
    · split at hok
      · exact Except.noConfusion hok
      · have hprop : proposed
            = advanceTimestamps r.TsCache (stampBatch r.ClockNow bArgs) :=
          (Except.ok.inj hok).symm
        subst hprop
        have hhead : (stampBatch r.ClockNow bArgs).Header.Timestamp
            = bArgs.Header.Timestamp := by
          simp [stampBatch, hts]
        have hshow :
            (advanceTimestamps r.TsCache (stampBatch r.ClockNow bArgs)).Header.Timestamp
            = advanceTsLoop r.TsCache (stampBatch r.ClockNow bArgs).Requests
              bArgs.Header.Timestamp := by
          rw [advanceTimestamps, ← hhead]
        rw [hshow]
        set f := fun (q : Request) =>
          if q.Header.Timestamp = zeroTS then
            { q with Header := { q.Header with Timestamp :=
              (if bArgs.Header.Timestamp = zeroTS then r.ClockNow
                else bArgs.Header.Timestamp) } }
          else q with hf
        have hmem : f a ∈ (stampBatch r.ClockNow bArgs).Requests := by
          simp only [stampBatch]
          exact List.mem_map_of_mem f ha
        have hkey : (f a).Header.Key = a.Header.Key ∧ (f a).Header.EndKey = a.Header.EndKey
            ∧ (f a).Header.Txn = a.Header.Txn ∧ (f a).Method = a.Method
            ∧ (f a).Header.ReadConsistency = a.Header.ReadConsistency := by
          rw [hf]
          by_cases hz : a.Header.Timestamp = zeroTS
          · simp [hz]
          · simp [hz]
        have hu2 : usesTimestampCache (f a) = true := by
          unfold usesTimestampCache at hu ⊢
          rw [hkey.2.2.2.1, hkey.2.2.2.2]
          exact hu
        have hmain := advanceTsLoop_past_read r.TsCache
          (stampBatch r.ClockNow bArgs).Requests bArgs.Header.Timestamp (f a) hmem hu2
        rw [hkey.1, hkey.2.1, hkey.2.2.1] at hmain
        exact hmain hr

/-- A replica whose cache records a read of key 1 at wall time 50 by
transaction 1, holding its own lease over wall times 0-1000. -/
def replicaReadAt50 : Replica :=
  ⟨1, 1, 0, 10, 0, ⟨⟨0, 0⟩, ⟨1000, 0⟩, 1⟩, ⟨[], [], 0⟩,
    ⟨⟨0, 0⟩, [⟨1, 0, ⟨50, 0⟩, some 1, true⟩]⟩, [], ⟨0, 0⟩⟩

/-- A write of key 1 at wall time 50 by transaction 2. -/
def writeAt50 : BatchRequest :=
  ⟨⟨1, 0, ⟨50, 0⟩, ⟨1, 2⟩, 1, some 2, .CONSISTENT⟩,
    [⟨.Put, ⟨1, 0, ⟨50, 0⟩, ⟨1, 2⟩, 1, some 2, .CONSISTENT⟩, 7, none⟩]⟩

/-- A lease oracle that never grants (unused on the witness's path). -/
def envNever : LeaseEnv := ⟨fun _ => (none, ⟨⟨0, 0⟩, ⟨0, 0⟩, 0⟩)⟩

/-- Witness for C5 (the spec's scenario 4): key 1 read at 50 by txn 1;
txn 2's write at 50 is proposed with a timestamp at or past (50, 1). -/
theorem C5_addWriteCmd_ts_advance_witness :
    tsLe (replicaReadAt50.TsCache.GetMax 1 0 (some 2)).1.Next
      ((advanceTimestamps replicaReadAt50.TsCache
        (stampBatch replicaReadAt50.ClockNow writeAt50)).Header.Timestamp) :=
  C5_addWriteCmd_ts_advance envNever replicaReadAt50 writeAt50
    (advanceTimestamps replicaReadAt50.TsCache
      (stampBatch replicaReadAt50.ClockNow writeAt50))
    rfl (by decide)
    ⟨.Put, ⟨1, 0, ⟨50, 0⟩, ⟨1, 2⟩, 1, some 2, .CONSISTENT⟩, 7, none⟩
    (by decide) (by decide) (by decide)

theorem respCacheLookup_put (c : List (ClientCmdID × ResponseWithError))
    (id : ClientCmdID) (rwe : ResponseWithError) :
    respCacheLookup (respCachePut c id rwe) id = rwe := by
  simp [respCacheLookup, respCachePut, List.find?]

theorem applyLoop_cache (r : Replica) (o : Nat) : ∀ (l : List Request)
    (batch : EngineState) (brep : BatchResponse),
    (∀ st e, applyLoop r o l batch brep = .notLeaderReturn st e →
      st.RespCache = batch.RespCache ∧ st.AppliedIndex = batch.AppliedIndex) ∧
    (∀ st rep er, applyLoop r o l batch brep = .done st rep er →
      st.RespCache = batch.RespCache ∧ st.AppliedIndex = batch.AppliedIndex) := by
  intro l
  induction l with
  | nil =>
    intro batch brep
    constructor
    · intro st e h
      exact LoopOutcome.noConfusion (h : applyLoop r o [] batch brep = _)
    · intro st rep er h
      have h2 : LoopOutcome.done batch brep none = .done st rep er := h
      injection h2 with e1 e2 e3
      rw [← e1]
      exact ⟨rfl, rfl⟩
  | cons args rest ih =>
    intro batch brep
    constructor
    · intro st e h
      unfold applyLoop at h
      split at h
      · injection h with e1 e2
        rw [← e1]
        exact ⟨rfl, rfl⟩
      · rcases hexec : executeCmd batch.Data args with ⟨data2, reply2, erX⟩
        rw [hexec] at h
        cases erX with
        | none => exact (ih { batch with Data := data2 } _).1 st e h
        | some e2 => exact LoopOutcome.noConfusion h
    · intro st rep er h
      unfold applyLoop at h
      split at h
      · exact LoopOutcome.noConfusion h
      · rcases hexec : executeCmd batch.Data args with ⟨data2, reply2, erX⟩
        rw [hexec] at h
        cases erX with
        | none => exact (ih { batch with Data := data2 } _).2 st rep er h
        | some e2 =>
          injection h with e1 e2 e3
          rw [← e1]
          exact ⟨rfl, rfl⟩

theorem applyLoop_notLeader_shape (r : Replica) (o : Nat) : ∀ (l : List Request)
    (batch : EngineState) (brep : BatchResponse) (st : EngineState) (e : Err),
    applyLoop r o l batch brep = .notLeaderReturn st e → e.isNotLeader = true := by
  intro l
  induction l with
  | nil =>
    intro batch brep st e h
    exact LoopOutcome.noConfusion (h : applyLoop r o [] batch brep = _)
  | cons args rest ih =>
    intro batch brep st e h
    unfold applyLoop at h
    split at h
    · injection h with e1 e2
      rw [← e2]
      unfold newNotLeaderError
      split
      · rfl
      · rfl
    · rcases hexec : executeCmd batch.Data args with ⟨data2, reply2, erX⟩
      rw [hexec] at h
      cases erX with
      | none => exact ih { batch with Data := data2 } _ st e h
      | some e2 => exact LoopOutcome.noConfusion h

theorem applyRaftCommand_step (r : Replica) (i o : Nat) (b : BatchRequest)
    (h0 : i ≠ 0) (h1 : ¬ i ≤ r.AppliedIndex) :
    applyRaftCommand r i o b
      = ({ r with
            Engine := { (applyRaftCommandInBatch r o b).1 with AppliedIndex := i },
            AppliedIndex := i },
          .res (applyRaftCommandInBatch r o b).2.1 (applyRaftCommandInBatch r o b).2.2) := by
  unfold applyRaftCommand
  rw [if_neg h0, if_neg h1]

/-- Whether an ApplyResult is a returned NotLeaderError. -/
def ApplyResult.isNotLeaderRes : ApplyResult → Bool
  | .res _ (some e) => e.isNotLeader
  | _ => false

theorem inBatch_cached (r : Replica) (o : Nat) (b : BatchRequest)
    (hw : b.IsWrite = true) (rwe : ResponseWithError)
    (hc : respCacheLookup r.Engine.RespCache b.Header.CmdID = rwe)
    (hrep : rwe.Reply ≠ none) :
    applyRaftCommandInBatch r o b = (r.Engine, rwe.Reply, rwe.Err) := by
  simp only [applyRaftCommandInBatch]
  rw [hc]
  rw [if_pos ⟨hw, hrep⟩]

theorem firstApply_caches (r : Replica) (o : Nat) (b : BatchRequest)
    (hw : b.IsWrite = true) (B1 : EngineState) (rep1 : Option BatchResponse)
    (er1 : Option Err)
    (hx : applyRaftCommandInBatch r o b = (B1, rep1, er1))
    (hnl : ∀ e, er1 = some e → e.isNotLeader = false) :
    respCacheLookup B1.RespCache b.Header.CmdID = ⟨rep1, er1⟩ ∧ rep1 ≠ none := by
  simp only [applyRaftCommandInBatch] at hx
  by_cases hhit : (b.IsWrite = true)
      ∧ (respCacheLookup r.Engine.RespCache b.Header.CmdID).Reply ≠ none
  · rw [if_pos hhit] at hx
    injection hx with e1 e23
    injection e23 with e2 e3
    constructor
    · rw [← e1, ← e2, ← e3]
    · rw [← e2]
      exact hhit.2
  · rw [if_neg hhit] at hx
    split at hx
    · rename_i st2 e hloop
      injection hx with e1 e23
      injection e23 with e2 e3
      exfalso
      have hshape := applyLoop_notLeader_shape r o b.Requests r.Engine
        ⟨b.Header.Timestamp, []⟩ st2 e hloop
      have hbad := hnl e e3.symm
      rw [hshape] at hbad
      exact Bool.noConfusion hbad
    · rename_i st2 rep er hloop
      rw [if_pos hw] at hx
      injection hx with e1 e23
      injection e23 with e2 e3
      constructor
      · rw [← e1, ← e2, ← e3]
        exact respCacheLookup_put _ _ _
      · rw [← e2]
        simp

theorem secondApply_cached (st1 : Replica) (o : Nat) (b : BatchRequest)
    (hw : b.IsWrite = true) (rep1 : Option BatchResponse) (er1 : Option Err) (i2 : Nat)
    (hc : respCacheLookup st1.Engine.RespCache b.Header.CmdID = ⟨rep1, er1⟩)
    (hrep : rep1 ≠ none) (h2 : i2 ≠ 0) (hgt : ¬ i2 ≤ st1.AppliedIndex) :
    applyRaftCommand st1 i2 o b
      = ({ st1 with Engine := { st1.Engine with AppliedIndex := i2 }, AppliedIndex := i2 },
          .res rep1 er1) := by
  have hsecond := inBatch_cached st1 o b hw ⟨rep1, er1⟩ hc hrep
  have hstep := applyRaftCommand_step st1 i2 o b h2 hgt
  rw [hsecond] at hstep
  exact hstep

/-- C1: a write batch whose CmdID already has a response-cache entry gets
the cached reply and error back from `applyRaftCommandInBatch`, with the
batch returned exactly as opened (no sub-request executed); consequently a
proposal applied at one index and replayed at a higher index leaves the user
data and the response cache as after the first apply and returns the same
outcome — both when the entry predates the first apply, and in general
whenever the first apply did not take the uncached NotLeaderError path. -/
theorem C1_response_cache_idempotence (r : Replica) (originNode : Nat)
    (bArgs : BatchRequest) (hw : bArgs.IsWrite = true) :
    (∀ rwe, respCacheLookup r.Engine.RespCache bArgs.Header.CmdID = rwe →
      rwe.Reply ≠ none →
      applyRaftCommandInBatch r originNode bArgs = (r.Engine, rwe.Reply, rwe.Err)) ∧
    (∀ rwe i1 i2, respCacheLookup r.Engine.RespCache bArgs.Header.CmdID = rwe →
      rwe.Reply ≠ none → r.AppliedIndex < i1 → i1 < i2 →
      ((applyRaftCommand (applyRaftCommand r i1 originNode bArgs).1
          i2 originNode bArgs).1.Engine.Data = r.Engine.Data ∧
        (applyRaftCommand (applyRaftCommand r i1 originNode bArgs).1
          i2 originNode bArgs).1.Engine.RespCache = r.Engine.RespCache ∧
        (applyRaftCommand (applyRaftCommand r i1 originNode bArgs).1
          i2 originNode bArgs).2 = .res rwe.Reply rwe.Err ∧
        (applyRaftCommand r i1 originNode bArgs).2 = .res rwe.Reply rwe.Err)) ∧
    (∀ i1 i2, r.AppliedIndex < i1 → i1 < i2 →
      (applyRaftCommand r i1 originNode bArgs).2.isNotLeaderRes = false →
      ((applyRaftCommand (applyRaftCommand r i1 originNode bArgs).1
          i2 originNode bArgs).1.Engine.Data
        = (applyRaftCommand r i1 originNode bArgs).1.Engine.Data ∧
        (applyRaftCommand (applyRaftCommand r i1 originNode bArgs).1
          i2 originNode bArgs).1.Engine.RespCache
        = (applyRaftCommand r i1 originNode bArgs).1.Engine.RespCache ∧
        (applyRaftCommand (applyRaftCommand r i1 originNode bArgs).1
          i2 originNode bArgs).2
        = (applyRaftCommand r i1 originNode bArgs).2)) := by
  refine ⟨fun rwe hc hrep => inBatch_cached r originNode bArgs hw rwe hc hrep,
    fun rwe i1 i2 hc hrep h1 h12 => ?_, fun i1 i2 h1 h12 hnl => ?_⟩
  · have hx := inBatch_cached r originNode bArgs hw rwe hc hrep
    have hstep1 := applyRaftCommand_step r i1 originNode bArgs (by omega) (by omega)
    rw [hx] at hstep1
    rw [hstep1]
    have hstep2 := secondApply_cached ({ r with Engine := { r.Engine with AppliedIndex := i1 }, AppliedIndex := i1 }) originNode bArgs hw rwe.Reply rwe.Err i2 hc hrep (by omega) (by show ¬ i2 ≤ i1; omega)
    rw [hstep2]
    exact ⟨rfl, rfl, rfl, rfl⟩
  · rcases hx : applyRaftCommandInBatch r originNode bArgs with ⟨B1, rep1, er1⟩
    have hstep1 := applyRaftCommand_step r i1 originNode bArgs (by omega) (by omega)
    rw [hx] at hstep1
    rw [hstep1] at hnl ⊢
    have hnl2 : ∀ e, er1 = some e → e.isNotLeader = false := by
      intro e he
      rw [he] at hnl
      exact hnl
    have hcache := firstApply_caches r originNode bArgs hw B1 rep1 er1 hx hnl2
    have hstep2 := secondApply_cached ({ r with Engine := { B1 with AppliedIndex := i1 }, AppliedIndex := i1 }) originNode bArgs hw rep1 er1 i2 hcache.1 hcache.2 (by omega) (by show ¬ i2 ≤ i1; omega)
    rw [hstep2]
    exact ⟨rfl, rfl, rfl⟩

/-- A replica whose response cache already holds an entry for command id
(1, 1), under its own live lease. -/
def replicaCached : Replica :=
  ⟨1, 1, 0, 10, 0, ⟨⟨0, 0⟩, ⟨1000, 0⟩, 1⟩,
    ⟨[], [(⟨1, 1⟩, ⟨some ⟨⟨9, 0⟩, []⟩, none⟩)], 0⟩, ⟨⟨0, 0⟩, []⟩, [], ⟨0, 0⟩⟩

/-- Witness for C1: replaying `samplePutBatch` (command id (1, 1), already
cached) at indexes 1 then 2 never changes the data or the cache and returns
the cached reply both times. -/
theorem C1_response_cache_idempotence_witness :
    (applyRaftCommand (applyRaftCommand replicaCached 1 1 samplePutBatch).1
        2 1 samplePutBatch).1.Engine.Data = replicaCached.Engine.Data ∧
    (applyRaftCommand (applyRaftCommand replicaCached 1 1 samplePutBatch).1
        2 1 samplePutBatch).1.Engine.RespCache = replicaCached.Engine.RespCache ∧
    (applyRaftCommand (applyRaftCommand replicaCached 1 1 samplePutBatch).1
        2 1 samplePutBatch).2
      = .res (some ⟨⟨9, 0⟩, []⟩) none ∧
    (applyRaftCommand replicaCached 1 1 samplePutBatch).2
      = .res (some ⟨⟨9, 0⟩, []⟩) none :=
  (C1_response_cache_idempotence replicaCached 1 samplePutBatch (by decide)).2.1
    ⟨some ⟨⟨9, 0⟩, []⟩, none⟩ 1 2 (by decide) (by decide) (by decide) (by decide)

/-- Prefix execution succeeds: every request executes without error when run
in sequence from the given store. -/
def execAllOK : Store → List Request → Bool
  | _, [] => true
  | s, a :: rest =>
    match executeCmd s a with
    | (s2, _, none) => execAllOK s2 rest
    | (_, _, some _) => false

theorem newNotLeaderError_shape (r : Replica) (l : Lease) (o : Nat) :
    (newNotLeaderError r l o).isNotLeader = true := by
  unfold newNotLeaderError
  split
  · rfl
  · rfl

theorem applyLoop_lease_violation (r : Replica) (o : Nat) : ∀ (pre : List Request)
    (bad : Request) (post : List Request) (batch : EngineState) (brep : BatchResponse),
    (∀ x ∈ pre, ¬ leaseCheckFails r.lease o x) →
    execAllOK batch.Data pre = true →
    leaseCheckFails r.lease o bad →
    ∃ st, applyLoop r o (pre ++ bad :: post) batch brep
        = .notLeaderReturn st (newNotLeaderError r r.lease o)
      ∧ st.RespCache = batch.RespCache := by
  intro pre
  induction pre with
  | nil =>
    intro bad post batch brep _ _ hbad
    refine ⟨batch, ?_, rfl⟩
    rw [List.nil_append]
    unfold applyLoop
    rw [if_pos hbad]
  | cons x rest ih =>
    intro bad post batch brep hpre hexec hbad
    have hx : ¬ leaseCheckFails r.lease o x := hpre x (by simp)
    rw [List.cons_append]
    unfold applyLoop
    rw [if_neg hx]
    rcases hexec2 : executeCmd batch.Data x with ⟨d2, rep2, erX⟩
    cases erX with
    | none =>
      have hexec3 : execAllOK d2 rest = true := by
        unfold execAllOK at hexec
        rw [hexec2] at hexec
        exact hexec
      obtain ⟨st, hloop, hcache⟩ := ih bad post { batch with Data := d2 }
        (brep.Add { rep2 with Timestamp := x.Header.Timestamp })
        (fun y hy => hpre y (by simp [hy])) hexec3 hbad
      exact ⟨st, hloop, hcache⟩
    | some e =>
      exfalso
      unfold execAllOK at hexec
      rw [hexec2] at hexec
      exact Bool.noConfusion hexec

/-- C3 counterexample: in a two-request write batch whose first sub-request
fails during execution (a ConditionalPut mismatch) before the loop reaches
the second, lease-violating sub-request, `applyRaftCommandInBatch` returns
the execution error — not a NotLeaderError — and a response-cache entry IS
written for the CmdID. -/
theorem C3_counterexample :
    BatchRequest.IsWrite ⟨⟨1, 0, ⟨50, 0⟩, ⟨3, 3⟩, 1, none, .CONSISTENT⟩,
        [⟨.ConditionalPut, ⟨1, 0, ⟨50, 0⟩, ⟨3, 3⟩, 1, none, .CONSISTENT⟩, 7, some 5⟩,
          ⟨.Put, ⟨2, 0, ⟨200, 0⟩, ⟨3, 3⟩, 1, none, .CONSISTENT⟩, 8, none⟩]⟩ = true ∧
    (∃ a ∈ (⟨⟨1, 0, ⟨50, 0⟩, ⟨3, 3⟩, 1, none, .CONSISTENT⟩,
        [⟨.ConditionalPut, ⟨1, 0, ⟨50, 0⟩, ⟨3, 3⟩, 1, none, .CONSISTENT⟩, 7, some 5⟩,
          ⟨.Put, ⟨2, 0, ⟨200, 0⟩, ⟨3, 3⟩, 1, none, .CONSISTENT⟩, 8, none⟩]⟩
          : BatchRequest).Requests,
      leaseCheckFails (Lease.mk ⟨0, 0⟩ ⟨100, 0⟩ 1) 1 a) ∧
    (applyRaftCommandInBatch
      ⟨1, 1, 0, 300, 0, ⟨⟨0, 0⟩, ⟨100, 0⟩, 1⟩, ⟨[], [], 0⟩, ⟨⟨0, 0⟩, []⟩, [], ⟨0, 0⟩⟩
      1
      ⟨⟨1, 0, ⟨50, 0⟩, ⟨3, 3⟩, 1, none, .CONSISTENT⟩,
        [⟨.ConditionalPut, ⟨1, 0, ⟨50, 0⟩, ⟨3, 3⟩, 1, none, .CONSISTENT⟩, 7, some 5⟩,
          ⟨.Put, ⟨2, 0, ⟨200, 0⟩, ⟨3, 3⟩, 1, none, .CONSISTENT⟩, 8, none⟩]⟩).2.2
      = some .conditionFailed ∧
    Err.conditionFailed.isNotLeader = false ∧
    respCacheLookup
      (applyRaftCommandInBatch
        ⟨1, 1, 0, 300, 0, ⟨⟨0, 0⟩, ⟨100, 0⟩, 1⟩, ⟨[], [], 0⟩, ⟨⟨0, 0⟩, []⟩, [], ⟨0, 0⟩⟩
        1
        ⟨⟨1, 0, ⟨50, 0⟩, ⟨3, 3⟩, 1, none, .CONSISTENT⟩,
          [⟨.ConditionalPut, ⟨1, 0, ⟨50, 0⟩, ⟨3, 3⟩, 1, none, .CONSISTENT⟩, 7, some 5⟩,
            ⟨.Put, ⟨2, 0, ⟨200, 0⟩, ⟨3, 3⟩, 1, none, .CONSISTENT⟩, 8, none⟩]⟩).1.RespCache
      ⟨3, 3⟩
      = ⟨some ⟨zeroTS, []⟩, some .conditionFailed⟩ := by
  refine ⟨by decide, by decide, by decide, by decide, by decide⟩

/-- C3 amended: during apply of a write batch whose CmdID is not already
cached, if the requests before the first lease-violating sub-request (other
than LeaderLease) pass their lease checks and execute without error, then
`applyRaftCommandInBatch` returns a NotLeaderError (and no reply), and no
response-cache entry is written: the returned batch carries the response
cache unchanged. -/
theorem C3_notLeader_uncached (r : Replica) (o : Nat) (bArgs : BatchRequest)
    (hw : bArgs.IsWrite = true)
    (hmiss : (respCacheLookup r.Engine.RespCache bArgs.Header.CmdID).Reply = none)
    (pre : List Request) (bad : Request) (post : List Request)
    (hsplit : bArgs.Requests = pre ++ bad :: post)
    (hpre : ∀ x ∈ pre, ¬ leaseCheckFails r.lease o x)
    (hexec : execAllOK r.Engine.Data pre = true)
    (hbad : leaseCheckFails r.lease o bad) :
    (applyRaftCommandInBatch r o bArgs).2.1 = none ∧
    (applyRaftCommandInBatch r o bArgs).2.2 = some (newNotLeaderError r r.lease o) ∧
    (newNotLeaderError r r.lease o).isNotLeader = true ∧
    (applyRaftCommandInBatch r o bArgs).1.RespCache = r.Engine.RespCache := by
  simp only [applyRaftCommandInBatch]
  rw [if_neg (fun hand => hand.2 hmiss)]
  rw [hsplit]
  obtain ⟨st, hloop, hcache⟩ := applyLoop_lease_violation r o pre bad post r.Engine
    ⟨bArgs.Header.Timestamp, []⟩ hpre hexec hbad
  rw [hloop]
  exact ⟨rfl, rfl, newNotLeaderError_shape r r.lease o, hcache⟩

/-- Witness for the amended C3: a singleton write batch whose one request
lies outside the lease interval is rejected with a NotLeaderError and the
response cache stays empty. -/
theorem C3_notLeader_uncached_witness :
    (applyRaftCommandInBatch
      ⟨1, 1, 0, 300, 0, ⟨⟨0, 0⟩, ⟨100, 0⟩, 1⟩, ⟨[], [], 0⟩, ⟨⟨0, 0⟩, []⟩, [], ⟨0, 0⟩⟩
      1
      ⟨⟨2, 0, ⟨200, 0⟩, ⟨4, 4⟩, 1, none, .CONSISTENT⟩,
        [⟨.Put, ⟨2, 0, ⟨200, 0⟩, ⟨4, 4⟩, 1, none, .CONSISTENT⟩, 8, none⟩]⟩).2.1
      = none ∧
    (applyRaftCommandInBatch
      ⟨1, 1, 0, 300, 0, ⟨⟨0, 0⟩, ⟨100, 0⟩, 1⟩, ⟨[], [], 0⟩, ⟨⟨0, 0⟩, []⟩, [], ⟨0, 0⟩⟩
      1
      ⟨⟨2, 0, ⟨200, 0⟩, ⟨4, 4⟩, 1, none, .CONSISTENT⟩,
        [⟨.Put, ⟨2, 0, ⟨200, 0⟩, ⟨4, 4⟩, 1, none, .CONSISTENT⟩, 8, none⟩]⟩).2.2
      = some (newNotLeaderError
          ⟨1, 1, 0, 300, 0, ⟨⟨0, 0⟩, ⟨100, 0⟩, 1⟩, ⟨[], [], 0⟩, ⟨⟨0, 0⟩, []⟩, [], ⟨0, 0⟩⟩
          (Lease.mk ⟨0, 0⟩ ⟨100, 0⟩ 1) 1) ∧
    (newNotLeaderError
        ⟨1, 1, 0, 300, 0, ⟨⟨0, 0⟩, ⟨100, 0⟩, 1⟩, ⟨[], [], 0⟩, ⟨⟨0, 0⟩, []⟩, [], ⟨0, 0⟩⟩
        (Lease.mk ⟨0, 0⟩ ⟨100, 0⟩ 1) 1).isNotLeader = true ∧
    (applyRaftCommandInBatch
      ⟨1, 1, 0, 300, 0, ⟨⟨0, 0⟩, ⟨100, 0⟩, 1⟩, ⟨[], [], 0⟩, ⟨⟨0, 0⟩, []⟩, [], ⟨0, 0⟩⟩
      1
      ⟨⟨2, 0, ⟨200, 0⟩, ⟨4, 4⟩, 1, none, .CONSISTENT⟩,
        [⟨.Put, ⟨2, 0, ⟨200, 0⟩, ⟨4, 4⟩, 1, none, .CONSISTENT⟩, 8, none⟩]⟩).1.RespCache
      = ([] : List (ClientCmdID × ResponseWithError)) :=
  C3_notLeader_uncached
    ⟨1, 1, 0, 300, 0, ⟨⟨0, 0⟩, ⟨100, 0⟩, 1⟩, ⟨[], [], 0⟩, ⟨⟨0, 0⟩, []⟩, [], ⟨0, 0⟩⟩
    1
    ⟨⟨2, 0, ⟨200, 0⟩, ⟨4, 4⟩, 1, none, .CONSISTENT⟩,
      [⟨.Put, ⟨2, 0, ⟨200, 0⟩, ⟨4, 4⟩, 1, none, .CONSISTENT⟩, 8, none⟩]⟩
    (by decide) (by decide)
    [] ⟨.Put, ⟨2, 0, ⟨200, 0⟩, ⟨4, 4⟩, 1, none, .CONSISTENT⟩, 8, none⟩ []
    rfl (by simp) (by decide) (by decide)

end Spec2Proof
